import Mathlib

/-!
# Verification of the DeRadar Turbo Backup aircraft tracker

A shallow embedding, in Lean 4, of the parts of the DeRadar Turbo Backup
service that the specification's testable claims speak about:

* the upload retry engine (`executeWithRetry`),
* the batcher and the cross-pipeline package-UUID map
  (`processBatch` / `processEncryptedBatch` / `batchUuidMap`),
* the minute-scoped encryption-key rotation (`getOrGenerateMinuteEncryptionKey`)
  and the tag lists of the two upload paths,
* the per-aircraft track store (bulk upsert and out-of-range update),
* the conditional-GET feed client state machine,
* the fingerprinter (`calculateAircraftHash`, an XXH64 of a canonical string),
* the stats snapshot backup / restore encryption round trip,
* the `getStats` read path and its state effects.

Conventions of the embedding:

* JavaScript numbers that the code only ever treats as non-negative integers
  (millisecond timestamps, counters, sizes) are modelled as `Nat`.
* A JavaScript value that is interpolated into a template literal is modelled
  by its JavaScript string rendering; a missing (`undefined`) field is an
  `Option.none` and renders as the string `"undefined"`, exactly as a template
  literal renders it.
* Cryptographic primitives are modelled symbolically: an HKDF-derived key is
  identified by the salt string it is derived from (HKDF with a fixed master
  key is deterministic, and distinct salts are treated as yielding distinct
  keys), and an AES-256-GCM package remembers the key identity it was sealed
  under, with authenticated decryption succeeding exactly when the same key is
  presented.  The XXH64 fingerprint hash, which is plain integer arithmetic,
  is implemented in full.
-/

namespace DeRadar

/-! ## Decimal rendering of JavaScript integers

`${n}` in a template literal renders a non-negative integer as its decimal
digit string.  We implement that rendering and prove it injective, digit-only
facts that the batch-id and key-uuid disambiguation arguments need. -/

/-- The decimal digit character for `n < 10` (out-of-range inputs, which never
occur, map to `'0'`). -/
def digitChar (n : Nat) : Char :=
  match n with
  | 0 => '0' | 1 => '1' | 2 => '2' | 3 => '3' | 4 => '4'
  | 5 => '5' | 6 => '6' | 7 => '7' | 8 => '8' | 9 => '9'
  | _ => '0'

/-- Numeric value of a digit character. -/
def digitVal (c : Char) : Nat := c.toNat - 48

/-- Decimal digit list of a natural number, most significant digit first. -/
def natDigits (n : Nat) : List Char :=
  if _h : n < 10 then [digitChar n]
  else natDigits (n / 10) ++ [digitChar (n % 10)]
  termination_by n
  decreasing_by exact Nat.div_lt_self (by omega) (by omega)

/-- JavaScript decimal rendering of a non-negative integer. -/
def natStr (n : Nat) : String := ⟨natDigits n⟩

/-- Value of a digit list, most significant digit first. -/
def valOfDigits (l : List Char) : Nat :=
  l.foldl (fun a c => a * 10 + digitVal c) 0

theorem digitVal_digitChar {n : Nat} (h : n < 10) : digitVal (digitChar n) = n := by
  interval_cases n <;> decide

theorem digitChar_isDigit {n : Nat} (h : n < 10) : (digitChar n).isDigit = true := by
  interval_cases n <;> decide

theorem valOfDigits_append_singleton (l : List Char) (c : Char) :
    valOfDigits (l ++ [c]) = valOfDigits l * 10 + digitVal c := by
  simp [valOfDigits, List.foldl_append]

theorem valOfDigits_natDigits (n : Nat) : valOfDigits (natDigits n) = n := by
  induction n using Nat.strong_induction_on with
  | _ n ih =>
    rw [natDigits]
    by_cases h : n < 10
    · simp only [h, dif_pos]
      simp [valOfDigits, digitVal_digitChar h]
    · simp only [h, dif_neg, not_false_iff]
      rw [valOfDigits_append_singleton, ih (n / 10) (Nat.div_lt_self (by omega) (by omega)),
        digitVal_digitChar (Nat.mod_lt _ (by omega))]
      omega

theorem natDigits_injective : Function.Injective natDigits := by
  intro a b h
  have := valOfDigits_natDigits a
  rw [h, valOfDigits_natDigits] at this
  omega

theorem natDigits_all_digit (n : Nat) : ∀ c ∈ natDigits n, c.isDigit = true := by
  induction n using Nat.strong_induction_on with
  | _ n ih =>
    rw [natDigits]
    by_cases h : n < 10
    · simp only [h, dif_pos, List.mem_singleton]
      rintro c rfl
      exact digitChar_isDigit h
    · simp only [h, dif_neg, not_false_iff, List.mem_append, List.mem_singleton]
      rintro c (hc | rfl)
      · exact ih (n / 10) (Nat.div_lt_self (by omega) (by omega)) c hc
      · exact digitChar_isDigit (Nat.mod_lt _ (by omega))

theorem natStr_injective : Function.Injective natStr := by
  intro a b h
  exact natDigits_injective (congrArg String.data h)

/-- Digits are not the dash character. -/
theorem isDigit_ne_dash {c : Char} (h : c.isDigit = true) : c ≠ '-' := by
  intro hc; subst hc; simp [Char.isDigit] at h

theorem natDigits_not_dash (n : Nat) : ∀ c ∈ natDigits n, c ≠ '-' :=
  fun c hc => isDigit_ne_dash (natDigits_all_digit n c hc)

/-- `takeWhile` over a run of satisfying characters followed by a failing one
returns exactly the run. -/
theorem takeWhile_run_append (p : Char → Bool) (l : List Char) (x : Char)
    (r : List Char) (hl : ∀ c ∈ l, p c = true) (hx : p x = false) :
    (l ++ x :: r).takeWhile p = l := by
  induction l with
  | nil => simp [List.takeWhile, hx]
  | cons a t ih =>
    have ha : p a = true := hl a (by simp)
    simp only [List.cons_append, List.takeWhile_cons, ha, if_true]
    rw [ih (fun c hc => hl c (by simp [hc]))]

/-- The suffix after the last dash of `pre ++ "-" ++ digit run`, extracted by
reversing.  Used to recover the ordinal from a batch id and the minute epoch
from a key uuid. -/
def lastDashFreeSegment (l : List Char) : List Char :=
  (l.reverse.takeWhile (fun c => !(c = '-'))).reverse

theorem lastDashFreeSegment_append (pre seg : List Char)
    (hseg : ∀ c ∈ seg, c ≠ '-') :
    lastDashFreeSegment (pre ++ '-' :: seg) = seg := by
  unfold lastDashFreeSegment
  rw [List.reverse_append, List.reverse_cons]
  rw [show seg.reverse ++ ['-'] ++ pre.reverse = seg.reverse ++ '-' :: pre.reverse by simp]
  rw [takeWhile_run_append _ _ _ _
      (fun c hc => by
        simp only [Bool.not_eq_true', decide_eq_false_iff_not]
        exact hseg c (List.mem_reverse.mp hc))
      (by simp), List.reverse_reverse]

/-! ## The upload retry engine

Source: `AircraftTrackerService.executeWithRetry` (the tracker service).
Each of the two pipelines owns a counter set; `isEncrypted` only selects which
set is touched, so we model the counter set itself.  The attempt outcomes of
the underlying `uploadFn` are an oracle `f : Nat → Bool` indexed by the
attempt number (`true` = the upload resolves, `false` = it rejects). -/

/-- One pipeline's upload counters (`stats` / `encryptedStats` in the source). -/
structure PipeStats where
  attempted : Nat
  succeeded : Nat
  failed : Nat
  retries : Nat
  deriving Repr, DecidableEq

/-- `executeWithRetry`: on the first attempt only, `attempted` is incremented;
a successful `uploadFn` call increments `succeeded`; a failure at
`attempt ≥ maxAttempts` increments `failed`; any other failure increments
`retries`, backs off and recurses with `attempt + 1`. -/
def executeWithRetry (f : Nat → Bool) (attempt maxAttempts : Nat) (s : PipeStats) :
    PipeStats :=
  let s1 := if attempt = 1 then { s with attempted := s.attempted + 1 } else s
  if f attempt then { s1 with succeeded := s1.succeeded + 1 }
  else if maxAttempts ≤ attempt then { s1 with failed := s1.failed + 1 }
  else executeWithRetry f (attempt + 1) maxAttempts { s1 with retries := s1.retries + 1 }
  termination_by maxAttempts - attempt
  decreasing_by omega

/-- The attempt number at which `executeWithRetry` stops: the first attempt in
`[attempt, maxAttempts]` whose upload succeeds, or `maxAttempts` if none does. -/
def finalAttempt (f : Nat → Bool) (attempt maxAttempts : Nat) : Nat :=
  if f attempt then attempt
  else if maxAttempts ≤ attempt then attempt
  else finalAttempt f (attempt + 1) maxAttempts
  termination_by maxAttempts - attempt
  decreasing_by omega

theorem executeWithRetry_eq (f : Nat → Bool) (attempt maxAttempts : Nat)
    (s : PipeStats) :
    executeWithRetry f attempt maxAttempts s =
      (let s1 := if attempt = 1 then { s with attempted := s.attempted + 1 } else s
      if f attempt then { s1 with succeeded := s1.succeeded + 1 }
      else if maxAttempts ≤ attempt then { s1 with failed := s1.failed + 1 }
      else executeWithRetry f (attempt + 1) maxAttempts
        { s1 with retries := s1.retries + 1 }) := by
  rw [executeWithRetry]

theorem finalAttempt_eq (f : Nat → Bool) (attempt maxAttempts : Nat) :
    finalAttempt f attempt maxAttempts =
      (if f attempt then attempt
      else if maxAttempts ≤ attempt then attempt
      else finalAttempt f (attempt + 1) maxAttempts) := by
  rw [finalAttempt]

theorem executeWithRetry_of_ok (f : Nat → Bool) (a m : Nat) (s : PipeStats)
    (h1 : f a = true) :
    executeWithRetry f a m s =
      (let s1 := if a = 1 then { s with attempted := s.attempted + 1 } else s
      { s1 with succeeded := s1.succeeded + 1 }) := by
  rw [executeWithRetry_eq]; simp [h1]

theorem executeWithRetry_of_exhausted (f : Nat → Bool) (a m : Nat) (s : PipeStats)
    (h1 : f a = false) (h2 : m ≤ a) :
    executeWithRetry f a m s =
      (let s1 := if a = 1 then { s with attempted := s.attempted + 1 } else s
      { s1 with failed := s1.failed + 1 }) := by
  rw [executeWithRetry_eq]; simp [h1, h2]

theorem executeWithRetry_of_retry (f : Nat → Bool) (a m : Nat) (s : PipeStats)
    (h1 : f a = false) (h2 : ¬ m ≤ a) :
    executeWithRetry f a m s =
      (let s1 := if a = 1 then { s with attempted := s.attempted + 1 } else s
      executeWithRetry f (a + 1) m { s1 with retries := s1.retries + 1 }) := by
  rw [executeWithRetry_eq]; simp [h1, h2]

theorem finalAttempt_of_ok (f : Nat → Bool) (a m : Nat) (h1 : f a = true) :
    finalAttempt f a m = a := by
  rw [finalAttempt_eq]; simp [h1]

theorem finalAttempt_of_exhausted (f : Nat → Bool) (a m : Nat)
    (h1 : f a = false) (h2 : m ≤ a) :
    finalAttempt f a m = a := by
  rw [finalAttempt_eq]; simp [h1, h2]

theorem finalAttempt_of_retry (f : Nat → Bool) (a m : Nat)
    (h1 : f a = false) (h2 : ¬ m ≤ a) :
    finalAttempt f a m = finalAttempt f (a + 1) m := by
  rw [finalAttempt_eq]; simp [h1, h2]

theorem finalAttempt_ge (f : Nat → Bool) :
    ∀ fuel attempt maxAttempts, maxAttempts - attempt ≤ fuel →
      attempt ≤ finalAttempt f attempt maxAttempts := by
  intro fuel
  induction fuel with
  | zero =>
    intro a m hf
    by_cases h1 : f a
    · rw [finalAttempt_of_ok f a m h1]
    · rw [finalAttempt_of_exhausted f a m (by simpa using h1) (by omega)]
  | succ n ih =>
    intro a m hf
    by_cases h1 : f a
    · rw [finalAttempt_of_ok f a m h1]
    · by_cases h2 : m ≤ a
      · rw [finalAttempt_of_exhausted f a m (by simpa using h1) h2]
      · rw [finalAttempt_of_retry f a m (by simpa using h1) h2]
        have := ih (a + 1) m (by omega)
        omega

/-- Core accounting lemma: one completed `executeWithRetry` call increments
`attempted` exactly when started at attempt 1, increments exactly one of
`succeeded` / `failed` (according to whether the final attempt's upload
succeeds), and adds one retry per non-final attempt. -/
theorem executeWithRetry_accounting (f : Nat → Bool) :
    ∀ fuel attempt maxAttempts s, 1 ≤ attempt → maxAttempts - attempt ≤ fuel →
      (executeWithRetry f attempt maxAttempts s).attempted
          = s.attempted + (if attempt = 1 then 1 else 0)
      ∧ (executeWithRetry f attempt maxAttempts s).retries
          = s.retries + (finalAttempt f attempt maxAttempts - attempt)
      ∧ (if f (finalAttempt f attempt maxAttempts) then
          (executeWithRetry f attempt maxAttempts s).succeeded = s.succeeded + 1
            ∧ (executeWithRetry f attempt maxAttempts s).failed = s.failed
        else
          (executeWithRetry f attempt maxAttempts s).failed = s.failed + 1
            ∧ (executeWithRetry f attempt maxAttempts s).succeeded = s.succeeded) := by
  intro fuel
  induction fuel with
  | zero =>
    intro a m s ha1 hf
    by_cases h1 : f a
    · rw [executeWithRetry_of_ok f a m s h1, finalAttempt_of_ok f a m h1]
      refine ⟨?_, ?_, ?_⟩ <;> by_cases ha : a = 1 <;> simp_all
    · have h1' : f a = false := by simpa using h1
      rw [executeWithRetry_of_exhausted f a m s h1' (by omega),
        finalAttempt_of_exhausted f a m h1' (by omega)]
      refine ⟨?_, ?_, ?_⟩ <;> by_cases ha : a = 1 <;> simp_all
  | succ n ih =>
    intro a m s ha1 hf
    by_cases h1 : f a
    · rw [executeWithRetry_of_ok f a m s h1, finalAttempt_of_ok f a m h1]
      refine ⟨?_, ?_, ?_⟩ <;> by_cases ha : a = 1 <;> simp_all
    · have h1' : f a = false := by simpa using h1
      by_cases h2 : m ≤ a
      · rw [executeWithRetry_of_exhausted f a m s h1' h2,
          finalAttempt_of_exhausted f a m h1' h2]
        refine ⟨?_, ?_, ?_⟩ <;> by_cases ha : a = 1 <;> simp_all
      · rw [executeWithRetry_of_retry f a m s h1' h2,
          finalAttempt_of_retry f a m h1' h2]
        simp only []
        set s1 := if a = 1 then { s with attempted := s.attempted + 1 } else s with hs1
        obtain ⟨iha, ihr, iho⟩ :=
          ih (a + 1) m { s1 with retries := s1.retries + 1 } (by omega) (by omega)
        have hfe : a + 1 ≤ finalAttempt f (a + 1) m :=
          finalAttempt_ge f n (a + 1) m (by omega)
        have hsucc : s1.succeeded = s.succeeded := by
          by_cases ha : a = 1 <;> simp [hs1, ha]
        have hfail : s1.failed = s.failed := by
          by_cases ha : a = 1 <;> simp [hs1, ha]
        have hret : s1.retries = s.retries := by
          by_cases ha : a = 1 <;> simp [hs1, ha]
        refine ⟨?_, ?_, ?_⟩
        · rw [iha]
          rw [if_neg (show ¬ (a + 1 = 1) by omega)]
          by_cases ha : a = 1 <;> simp [hs1, ha]
        · rw [ihr]
          dsimp only
          rw [hret]
          omega
        · split at iho <;> rename_i hfin
          · rw [if_pos hfin]
            exact ⟨by rw [iho.1]; simp [hsucc], by rw [iho.2]; simp [hfail]⟩
          · rw [if_neg hfin]
            exact ⟨by rw [iho.1]; simp [hfail], by rw [iho.2]; simp [hsucc]⟩

/-- One completed call preserves `attempted = succeeded + failed`. -/
theorem executeWithRetry_preserves_inv (f : Nat → Bool) (s : PipeStats)
    (h : s.attempted = s.succeeded + s.failed) :
    (executeWithRetry f 1 5 s).attempted
      = (executeWithRetry f 1 5 s).succeeded + (executeWithRetry f 1 5 s).failed := by
  obtain ⟨ha, _, ho⟩ :=
    executeWithRetry_accounting f 5 1 5 s (by omega) (by omega)
  have ha2 : (executeWithRetry f 1 5 s).attempted = s.attempted + 1 := by
    simpa using ha
  clear ha
  split at ho <;> omega

theorem foldl_executeWithRetry_inv (runs : List (Nat → Bool)) (s : PipeStats)
    (h : s.attempted = s.succeeded + s.failed) :
    (runs.foldl (fun st g => executeWithRetry g 1 5 st) s).attempted
      = (runs.foldl (fun st g => executeWithRetry g 1 5 st) s).succeeded
        + (runs.foldl (fun st g => executeWithRetry g 1 5 st) s).failed := by
  induction runs generalizing s with
  | nil => exact h
  | cons g rest ih =>
    exact ih (executeWithRetry g 1 5 s) (executeWithRetry_preserves_inv g s h)

/-- Every attempt strictly before the final one fails. -/
theorem executeWithRetry_failed_before_final (f : Nat → Bool) :
    ∀ fuel attempt maxAttempts, maxAttempts - attempt ≤ fuel →
      ∀ k, attempt ≤ k → k < finalAttempt f attempt maxAttempts → f k = false := by
  intro fuel
  induction fuel with
  | zero =>
    intro a m hf k hk1 hk2
    by_cases h1 : f a
    · rw [finalAttempt_of_ok f a m h1] at hk2; omega
    · rw [finalAttempt_of_exhausted f a m (by simpa using h1) (by omega)] at hk2
      omega
  | succ n ih =>
    intro a m hf k hk1 hk2
    by_cases h1 : f a
    · rw [finalAttempt_of_ok f a m h1] at hk2; omega
    · have h1' : f a = false := by simpa using h1
      by_cases h2 : m ≤ a
      · rw [finalAttempt_of_exhausted f a m h1' h2] at hk2; omega
      · rw [finalAttempt_of_retry f a m h1' h2] at hk2
        rcases Nat.eq_or_lt_of_le hk1 with rfl | hlt
        · exact h1'
        · exact ih (a + 1) m (by omega) k hlt hk2


/-- Claim C2.  With the pipeline's parameters (`attempt = 1`,
`maxAttempts = 5`), a completed `executeWithRetry` call increments
`attempted` exactly once, increments exactly one of `succeeded` / `failed`
(according to whether the final attempt's upload succeeds, every earlier
attempt having failed), adds one retry per failed non-final attempt, and
therefore `attempted = succeeded + failed` is preserved across any finite
sequence of enqueued batches run to completion — the quiescent moments when
both queues are empty and every slot is free. -/
theorem claim_C2_retry_accounting (f : Nat → Bool) (s : PipeStats) :
    (executeWithRetry f 1 5 s).attempted = s.attempted + 1
    ∧ (executeWithRetry f 1 5 s).succeeded + (executeWithRetry f 1 5 s).failed
        = s.succeeded + s.failed + 1
    ∧ (executeWithRetry f 1 5 s).retries = s.retries + (finalAttempt f 1 5 - 1)
    ∧ (∀ k, 1 ≤ k → k < finalAttempt f 1 5 → f k = false)
    ∧ (f (finalAttempt f 1 5) = true →
        (executeWithRetry f 1 5 s).succeeded = s.succeeded + 1
          ∧ (executeWithRetry f 1 5 s).failed = s.failed)
    ∧ (f (finalAttempt f 1 5) = false →
        (executeWithRetry f 1 5 s).failed = s.failed + 1
          ∧ (executeWithRetry f 1 5 s).succeeded = s.succeeded)
    ∧ (∀ runs : List (Nat → Bool), s.attempted = s.succeeded + s.failed →
        (runs.foldl (fun st g => executeWithRetry g 1 5 st) s).attempted
          = (runs.foldl (fun st g => executeWithRetry g 1 5 st) s).succeeded
            + (runs.foldl (fun st g => executeWithRetry g 1 5 st) s).failed) := by
  obtain ⟨ha, hr, ho⟩ :=
    executeWithRetry_accounting f 5 1 5 s (by omega) (by omega)
  refine ⟨by simpa using ha, ?_, hr, ?_, ?_, ?_, ?_⟩
  · split at ho <;> omega
  · exact fun k hk1 hk2 =>
      executeWithRetry_failed_before_final f 5 1 5 (by omega) k hk1 hk2
  · intro hfin
    rw [if_pos hfin] at ho
    exact ho
  · intro hfin
    rw [if_neg (by simp [hfin])] at ho
    exact ho
  · exact fun runs h => foldl_executeWithRetry_inv runs s h

/-- Witness for claim C2 at concrete inputs: an upload that fails its first
three attempts and succeeds on the fourth, starting from zeroed counters. -/
theorem claim_C2_retry_accounting_witness :
    (executeWithRetry (fun k => decide (4 <= k)) 1 5 ⟨0, 0, 0, 0⟩).attempted = 1
    ∧ (executeWithRetry (fun k => decide (4 <= k)) 1 5 ⟨0, 0, 0, 0⟩).succeeded = 1
    ∧ (executeWithRetry (fun k => decide (4 <= k)) 1 5 ⟨0, 0, 0, 0⟩).failed = 0
    ∧ (executeWithRetry (fun k => decide (4 <= k)) 1 5 ⟨0, 0, 0, 0⟩).retries = 3
    ∧ ([fun k => decide (4 <= k), fun _ => false].foldl
        (fun st g => executeWithRetry g 1 5 st) ⟨0, 0, 0, 0⟩).attempted
      = ([fun k => decide (4 <= k), fun _ => false].foldl
          (fun st g => executeWithRetry g 1 5 st) ⟨0, 0, 0, 0⟩).succeeded
        + ([fun k => decide (4 <= k), fun _ => false].foldl
            (fun st g => executeWithRetry g 1 5 st) ⟨0, 0, 0, 0⟩).failed := by
  have h := claim_C2_retry_accounting (fun k => decide (4 <= k)) ⟨0, 0, 0, 0⟩
  obtain ⟨ha, hsum, hr, hbefore, hok, hbad, hinv⟩ := h
  have hfin : finalAttempt (fun k => decide (4 <= k)) 1 5 = 4 := by
    simp [finalAttempt_eq]
  obtain ⟨hs, hf⟩ := hok (by rw [hfin]; decide)
  refine ⟨ha, by simpa using hs, by simpa using hf, by rw [hr, hfin], ?_⟩
  exact hinv [fun k => decide (4 <= k), fun _ => false] rfl


/-! ## Aircraft observations

The fields of a feed observation that the modelled code paths read.  Each
optional field carries the JavaScript string rendering of its value; a
missing field is `none` (and renders as `"undefined"` inside a template
literal). -/

structure Aircraft where
  hex : String
  flight : Option String := none
  lat : Option String := none
  lon : Option String := none
  alt_baro : Option String := none
  alt_geom : Option String := none
  gs : Option String := none
  track : Option String := none
  baro_rate : Option String := none
  squawk : Option String := none
  emergency : Option String := none
  r : Option String := none
  t : Option String := none
  deriving Repr, DecidableEq

/-! ## The batcher and the cross-pipeline UUID map

Source: `AircraftTrackerService.processBatch`, `processEncryptedBatch` and
the `batchUuidMap` field.  `uuidv4()` draws are modelled by an oracle
`Nat → String` indexed by the chunk ordinal. -/

/-- An entry of `aircraftBatch` / `encryptedAircraftBatch`:
`{ aircraft, snapshotTime, hex }`. -/
structure BatchEvent where
  aircraft : Aircraft
  snapshotTime : Nat
  hex : String
  deriving Repr, DecidableEq

/-- An entry of `uploadQueue` / `encryptedUploadQueue`:
`{ batch, packageUuid, batchId }`. -/
structure QueueItem where
  batch : List BatchEvent
  packageUuid : String
  batchId : String
  deriving Repr, DecidableEq

/-- The slicing loop `for (i = 0; i < length; i += MAX) slice(i, i + MAX)`:
chunks of at most `n` elements, preserving order. -/
def chunksOf (n : Nat) (l : List α) : List (List α) :=
  match l with
  | [] => []
  | x :: xs =>
    if _hn : n = 0 then [x :: xs]
    else (x :: xs).take n :: chunksOf n ((x :: xs).drop n)
  termination_by l.length
  decreasing_by
    simp only [List.length_drop, List.length_cons]
    omega

/-- `batchUuidMap`, a JavaScript `Map<string, string>`: association list in
which `set` replaces any previous binding of the key. -/
abbrev UuidMap : Type := List (String × String)

def mapSet (m : UuidMap) (k v : String) : UuidMap :=
  (k, v) :: List.filter (fun p => !(p.1 == k)) m

def mapGet (m : UuidMap) (k : String) : Option String :=
  (List.find? (fun p => p.1 == k) m).map (fun p => p.2)

/-- Number of keys of the map (`Map.size`). -/
def mapSize (m : UuidMap) : Nat := List.length m

/-- `` `${batch[0].snapshotTime}-${batch[0].hex}-${i}` `` — the deterministic
batch identifier (the source never evaluates it on an empty chunk). -/
def batchIdOf (batch : List BatchEvent) (i : Nat) : String :=
  match batch with
  | [] => ""
  | e :: _ => natStr e.snapshotTime ++ "-" ++ e.hex ++ "-" ++ natStr i

/-- The `for` loop of `processBatch`: per chunk, draw a fresh `packageUuid`,
compute the batch id, record the pair in the map, enqueue. -/
def enqueueBatches (uuidAt : Nat → String) :
    List (List BatchEvent) → Nat → UuidMap → List QueueItem × UuidMap
  | [], _, m => ([], m)
  | b :: rest, i, m =>
    let packageUuid := uuidAt i
    let batchId := batchIdOf b i
    let m1 := mapSet m batchId packageUuid
    let (q, m2) := enqueueBatches uuidAt rest (i + 1) m1
    (⟨b, packageUuid, batchId⟩ :: q, m2)

/-- `processBatch`: split the buffered events into chunks of at most 30 and
enqueue each with a fresh uuid, recording `(batchId, packageUuid)`. -/
def processBatch (buffer : List BatchEvent) (uuidAt : Nat → String)
    (m : UuidMap) : List QueueItem × UuidMap :=
  enqueueBatches uuidAt (chunksOf 30 buffer) 0 m

/-- The `for` loop of `processEncryptedBatch`: per chunk, recompute the batch
id and look the `packageUuid` up, falling back to a fresh uuid when no
mapping exists. -/
def enqueueEncryptedBatches (uuidAt2 : Nat → String) (m : UuidMap) :
    List (List BatchEvent) → Nat → List QueueItem
  | [], _ => []
  | b :: rest, i =>
    let batchId := batchIdOf b i
    let packageUuid := (mapGet m batchId).getD (uuidAt2 i)
    ⟨b, packageUuid, batchId⟩ :: enqueueEncryptedBatches uuidAt2 m rest (i + 1)

/-- `processEncryptedBatch` (the map is read, never written). -/
def processEncryptedBatch (buffer : List BatchEvent) (uuidAt2 : Nat → String)
    (m : UuidMap) : List QueueItem :=
  enqueueEncryptedBatches uuidAt2 m (chunksOf 30 buffer) 0


theorem chunksOf_nil (n : Nat) : chunksOf n ([] : List α) = [] := by
  rw [chunksOf]

theorem chunksOf_cons (n : Nat) (x : α) (xs : List α) (hn : n ≠ 0) :
    chunksOf n (x :: xs) = (x :: xs).take n :: chunksOf n ((x :: xs).drop n) := by
  rw [chunksOf]
  simp [hn]

theorem chunksOf_props (n : Nat) (hn : n ≠ 0) :
    ∀ fuel (l : List α), l.length ≤ fuel →
      (chunksOf n l).flatten = l ∧ ∀ b ∈ chunksOf n l, b ≠ [] ∧ b.length ≤ n := by
  intro fuel
  induction fuel with
  | zero =>
    intro l hl
    have : l = [] := List.eq_nil_of_length_eq_zero (by omega)
    subst this
    simp [chunksOf_nil]
  | succ f ih =>
    intro l hl
    match l with
    | [] => simp [chunksOf_nil]
    | x :: xs =>
      rw [chunksOf_cons n x xs hn]
      simp only [List.length_cons] at hl
      have hrec := ih ((x :: xs).drop n)
        (by simp only [List.length_drop, List.length_cons]; omega)
      constructor
      · simp only [List.flatten_cons, hrec.1, List.take_append_drop]
      · intro b hb
        rcases List.mem_cons.mp hb with rfl | hb2
        · refine ⟨by simp [List.take_cons]; omega, by simp⟩
        · exact hrec.2 b hb2

theorem mapGet_mapSet_same (m : UuidMap) (k v : String) :
    mapGet (mapSet m k v) k = some v := by
  simp [mapGet, mapSet, List.find?]

theorem find?_filter_other (m : UuidMap) (k kq : String) (h : kq ≠ k) :
    List.find? (fun p => p.1 == kq) (List.filter (fun p => !(p.1 == k)) m)
      = List.find? (fun p => p.1 == kq) m := by
  induction m with
  | nil => rfl
  | cons p rest ih =>
    by_cases hp : p.1 = k
    · have h1 : (!(p.1 == k)) = false := by simp [hp]
      have h2 : (p.1 == kq) = false := by
        rw [hp, beq_eq_false_iff_ne]
        exact fun hq => h hq.symm
      simp [List.filter_cons, List.find?_cons, h1, h2, ih]
    · have h1 : (!(p.1 == k)) = true := by simp [hp]
      by_cases hq : p.1 = kq
      · have h2 : (p.1 == kq) = true := by simp [hq]
        simp [List.filter_cons, List.find?_cons, h1, h2]
      · have h2 : (p.1 == kq) = false := by simp [hq]
        simp [List.filter_cons, List.find?_cons, h1, h2, ih]

theorem mapGet_mapSet_other (m : UuidMap) (k v kq : String) (h : kq ≠ k) :
    mapGet (mapSet m k v) kq = mapGet m kq := by
  have h2 : (k == kq) = false := by
    rw [beq_eq_false_iff_ne]
    exact fun hq => h hq.symm
  simp only [mapGet, mapSet, List.find?_cons, h2]
  rw [find?_filter_other m k kq h]

theorem batchId_data_split (t : Nat) (hx : String) (i : Nat) :
    (natStr t ++ "-" ++ hx ++ "-" ++ natStr i).data
      = (natDigits t ++ '-' :: hx.data) ++ '-' :: natDigits i := by
  simp [natStr, String.data_append]

/-- The ordinal is recoverable from a batch id: it is the digit run after the
last dash (the hex may itself contain dashes, the ordinal may not). -/
theorem ord_of_batchId (t : Nat) (hx : String) (i : Nat) :
    lastDashFreeSegment (natStr t ++ "-" ++ hx ++ "-" ++ natStr i).data
      = natDigits i := by
  rw [batchId_data_split, lastDashFreeSegment_append _ _ (natDigits_not_dash i)]

/-- The snapshot time is recoverable from a batch id: it is the digit run
before the first dash. -/
theorem time_of_batchId (t : Nat) (hx : String) (i : Nat) :
    ((natStr t ++ "-" ++ hx ++ "-" ++ natStr i).data).takeWhile Char.isDigit
      = natDigits t := by
  have h : (natStr t ++ "-" ++ hx ++ "-" ++ natStr i).data
      = natDigits t ++ '-' :: (hx.data ++ '-' :: natDigits i) := by
    simp [natStr, String.data_append]
  rw [h, takeWhile_run_append _ _ _ _ (natDigits_all_digit t) (by decide)]

/-- Chunks with different ordinals get different batch ids. -/
theorem batchIdOf_ne_of_ord (b b' : List BatchEvent) (i i' : Nat)
    (hb : b ≠ []) (hb' : b' ≠ []) (hij : i ≠ i') :
    batchIdOf b i ≠ batchIdOf b' i' := by
  match b, b' with
  | e :: l, e' :: l' =>
    intro heq
    have hd := congrArg (fun s => lastDashFreeSegment (String.data s)) heq
    simp only [batchIdOf] at hd
    rw [ord_of_batchId, ord_of_batchId] at hd
    exact hij (natDigits_injective hd)

/-- Batches whose lead events carry different snapshot times get different
batch ids. -/
theorem batchIdOf_ne_of_time (e e' : BatchEvent) (l l' : List BatchEvent)
    (i i' : Nat) (ht : e.snapshotTime ≠ e'.snapshotTime) :
    batchIdOf (e :: l) i ≠ batchIdOf (e' :: l') i' := by
  intro heq
  have hd := congrArg (fun s => List.takeWhile Char.isDigit (String.data s)) heq
  simp only [batchIdOf] at hd
  rw [time_of_batchId, time_of_batchId] at hd
  exact ht (natDigits_injective hd)

/-- The batch ids generated by the `processBatch` loop from ordinal `i` on. -/
def batchIdsFrom : List (List BatchEvent) → Nat → List String
  | [], _ => []
  | b :: rest, i => batchIdOf b i :: batchIdsFrom rest (i + 1)

theorem batchIdOf_not_mem_from (b : List BatchEvent) (hb : b ≠ []) :
    ∀ (rest : List (List BatchEvent)), (∀ x ∈ rest, x ≠ []) →
      ∀ i i', i < i' → batchIdOf b i ∉ batchIdsFrom rest i' := by
  intro rest
  induction rest with
  | nil => intro _ i i' _ hmem; exact absurd hmem (by simp [batchIdsFrom])
  | cons x xs ih =>
    intro hne i i' hlt hmem
    rcases List.mem_cons.mp hmem with heq | hmem2
    · exact batchIdOf_ne_of_ord b x i i' hb (hne x (by simp)) (by omega) heq
    · exact ih (fun y hy => hne y (by simp [hy])) i (i' + 1) (by omega) hmem2

/-- Keys not among the generated batch ids keep their bindings. -/
theorem enqueueBatches_preserves (uuidAt : Nat → String) :
    ∀ (bs : List (List BatchEvent)) (i : Nat) (m : UuidMap) (k : String),
      k ∉ batchIdsFrom bs i →
      mapGet (enqueueBatches uuidAt bs i m).2 k = mapGet m k := by
  intro bs
  induction bs with
  | nil => intro i m k _; rfl
  | cons b rest ih =>
    intro i m k hk
    simp only [batchIdsFrom, List.mem_cons, not_or] at hk
    simp only [enqueueBatches]
    rw [ih (i + 1) _ k hk.2, mapGet_mapSet_other _ _ _ _ hk.1]

/-- After the `processBatch` loop, the encrypted loop finds exactly the uuid
the clear loop drew for the same ordinal, so the queues coincide item for
item — batch, batch id and `packageUuid`. -/
theorem enqueueEncrypted_aligns (uuidAt uuidAt2 : Nat → String) :
    ∀ (bs : List (List BatchEvent)), (∀ x ∈ bs, x ≠ []) →
      ∀ (i : Nat) (m : UuidMap),
        enqueueEncryptedBatches uuidAt2 (enqueueBatches uuidAt bs i m).2 bs i
          = (enqueueBatches uuidAt bs i m).1 := by
  intro bs
  induction bs with
  | nil => intro _ i m; rfl
  | cons b rest ih =>
    intro hne i m
    have hb : b ≠ [] := hne b (by simp)
    have hrest : ∀ x ∈ rest, x ≠ [] := fun x hx => hne x (by simp [hx])
    simp only [enqueueBatches, enqueueEncryptedBatches]
    have hlook :
        mapGet (enqueueBatches uuidAt rest (i + 1)
            (mapSet m (batchIdOf b i) (uuidAt i))).2 (batchIdOf b i)
          = some (uuidAt i) := by
      rw [enqueueBatches_preserves uuidAt rest (i + 1) _ _
          (batchIdOf_not_mem_from b hb rest hrest i (i + 1) (by omega)),
        mapGet_mapSet_same]
    rw [hlook]
    simp only [Option.getD_some]
    rw [ih hrest (i + 1) (mapSet m (batchIdOf b i) (uuidAt i))]

theorem enqueueBatches_fst (uuidAt : Nat → String) :
    ∀ (bs : List (List BatchEvent)) (i : Nat) (m : UuidMap),
      ((enqueueBatches uuidAt bs i m).1.map QueueItem.batch = bs)
        ∧ ((enqueueBatches uuidAt bs i m).1.map QueueItem.packageUuid
            = (List.range bs.length).map (fun j => uuidAt (i + j))) := by
  intro bs
  induction bs with
  | nil => intro i m; constructor <;> rfl
  | cons b rest ih =>
    intro i m
    simp only [enqueueBatches, List.map_cons, List.length_cons]
    obtain ⟨ihb, ihu⟩ := ih (i + 1) (mapSet m (batchIdOf b i) (uuidAt i))
    refine ⟨by rw [ihb], ?_⟩
    rw [ihu, List.range_succ_eq_map]
    simp only [List.map_cons, List.map_map, Nat.add_zero]
    congr 1
    apply List.map_congr_left
    intro j _
    simp only [Function.comp_apply]
    congr 1
    omega

/-- Claim C3.  At the end of a tick the buffered change events are split into
order-preserving chunks of at most 30; the clear pipeline draws one fresh
`packageUuid` per chunk and records `(batchId, packageUuid)` in the shared
map; the encrypted pipeline, run on the same buffer against the resulting
map, produces the identical queue — same chunks, same batch ids and the same
`packageUuid` per batch. -/
theorem claim_C3_batch_uuid_coupling (buffer : List BatchEvent)
    (u1 u2 : Nat → String) (m0 : UuidMap) :
    processEncryptedBatch buffer u2 (processBatch buffer u1 m0).2
        = (processBatch buffer u1 m0).1
    ∧ (processBatch buffer u1 m0).1.map QueueItem.batch = chunksOf 30 buffer
    ∧ (chunksOf 30 buffer).flatten = buffer
    ∧ (∀ b ∈ chunksOf 30 buffer, b ≠ [] ∧ b.length ≤ 30)
    ∧ (processBatch buffer u1 m0).1.map QueueItem.packageUuid
        = (List.range (chunksOf 30 buffer).length).map u1 := by
  have hp := chunksOf_props 30 (by omega) buffer.length buffer le_rfl
  have hne : ∀ x ∈ chunksOf 30 buffer, x ≠ [] := fun x hx => (hp.2 x hx).1
  refine ⟨?_, ?_, hp.1, hp.2, ?_⟩
  · exact enqueueEncrypted_aligns u1 u2 _ hne 0 m0
  · exact (enqueueBatches_fst u1 (chunksOf 30 buffer) 0 m0).1
  · have h := (enqueueBatches_fst u1 (chunksOf 30 buffer) 0 m0).2
    simpa using h

/-! ## The batch-uuid map over an unbounded run (claim C9)

`batchUuidMap` is only ever written by `processBatch` (`set`) and read by
`processEncryptedBatch` (`get`); no expiry, sweep or delete exists anywhere
in the source.  `c9Run n` is the map after `n` ticks, each tick batching one
event whose feed snapshot time is the tick ordinal. -/

def c9Event (k : Nat) : BatchEvent :=
  { aircraft := { hex := "abc123" }, snapshotTime := k, hex := "abc123" }

def c9Run : Nat → UuidMap
  | 0 => []
  | n + 1 => (processBatch [c9Event n] (fun _ => "uuid") (c9Run n)).2

theorem chunksOf_singleton (x : α) : chunksOf 30 [x] = [[x]] := by
  rw [chunksOf]
  norm_num
  rw [chunksOf_nil]

theorem c9Run_succ (n : Nat) :
    c9Run (n + 1) = mapSet (c9Run n) (batchIdOf [c9Event n] 0) "uuid" := by
  show (processBatch [c9Event n] (fun _ => "uuid") (c9Run n)).2 = _
  rw [processBatch, chunksOf_singleton]
  rfl

theorem c9Run_keys (n : Nat) :
    ∀ p ∈ c9Run n, ∃ k, k < n ∧ (p : String × String).1 = batchIdOf [c9Event k] 0 := by
  induction n with
  | zero => intro p hp; exact absurd hp (by simp [c9Run])
  | succ n ih =>
    intro p hp
    rw [c9Run_succ] at hp
    rcases List.mem_cons.mp hp with rfl | hp2
    · exact ⟨n, by omega, rfl⟩
    · obtain ⟨k, hk, hk2⟩ := ih p (List.mem_of_mem_filter hp2)
      exact ⟨k, by omega, hk2⟩

theorem c9Run_size (n : Nat) : mapSize (c9Run n) = n := by
  induction n with
  | zero => rfl
  | succ n ih =>
    rw [c9Run_succ]
    have hkeep : List.filter (fun p => !(p.1 == batchIdOf [c9Event n] 0)) (c9Run n)
        = c9Run n := by
      rw [List.filter_eq_self]
      intro p hp
      obtain ⟨k, hk, hk2⟩ := c9Run_keys n p hp
      have hne : batchIdOf [c9Event k] 0 ≠ batchIdOf [c9Event n] 0 :=
        batchIdOf_ne_of_time (c9Event k) (c9Event n) [] [] 0 0
          (by simp [c9Event]; omega)
      simp [hk2, hne]
    simp only [mapSet, mapSize, List.length_cons, hkeep]
    rw [show (c9Run n).length = mapSize (c9Run n) from rfl, ih]

/-- Counterexample to claim C9: the batch-uuid map is not bounded — no bound
holds over an unbounded run, because entries never expire (nothing in the
source ever removes a key). -/
theorem claim_C9_counterexample :
    ¬ ∃ B : Nat, ∀ n : Nat, mapSize (c9Run n) ≤ B := by
  rintro ⟨B, hB⟩
  have h := hB (B + 1)
  rw [c9Run_size] at h
  omega

/-- Claim C9, amended.  The map is append-only: a tick's `processBatch`
leaves every binding whose key is not among that tick's freshly generated
batch ids untouched (so all older entries — in particular the last five
minutes' worth — remain retrievable), and over an unbounded run the map
grows without bound, one entry per distinct batch id. -/
theorem claim_C9_amended :
    (∀ (buffer : List BatchEvent) (u : Nat → String) (m0 : UuidMap) (k : String),
      k ∉ batchIdsFrom (chunksOf 30 buffer) 0 →
      mapGet (processBatch buffer u m0).2 k = mapGet m0 k)
    ∧ (∀ n, mapSize (c9Run n) = n) := by
  constructor
  · intro buffer u m0 k hk
    exact enqueueBatches_preserves u (chunksOf 30 buffer) 0 m0 k hk
  · exact c9Run_size

/-- Witness for the amended claim C9: a pre-existing binding under an
unrelated key survives a tick, and after three ticks the map holds three
entries. -/
theorem claim_C9_amended_witness :
    mapGet (processBatch [c9Event 0] (fun _ => "u") [("zzz", "w")]).2 "zzz"
        = some "w"
    ∧ mapSize (c9Run 3) = 3 := by
  constructor
  · have h := claim_C9_amended.1 [c9Event 0] (fun _ => "u") [("zzz", "w")] "zzz"
      (by
        rw [chunksOf_singleton]
        have hd : natDigits 0 = ['0'] := by rw [natDigits]; rfl
        have hb : batchIdOf [c9Event 0] 0 = "0-abc123-0" := by
          show natStr 0 ++ "-" ++ "abc123" ++ "-" ++ natStr 0 = "0-abc123-0"
          simp only [natStr, hd]
          decide
        simp only [batchIdsFrom, hb]
        decide)
    rw [h]
    rfl
  · exact claim_C9_amended.2 3


/-! ## Minute-scoped encryption keys (claim C4)

Source: `EncryptionService.getOrGenerateMinuteEncryptionKey` and
`encryptBuffer`; `ArchiveService.uploadBatchParquetEncrypted` (`baseTags`).
`crypto.randomUUID()` draws are an oracle argument.  The derived key is
identified symbolically by the salt it is derived from (HKDF is
deterministic in the salt and master key). -/

/-- `currentMinuteEncryptionKey : { keyUuid, derivedKey, timestamp } | null`,
with the derived key left implicit (it is a function of the `keyUuid`). -/
structure MinuteKeyState where
  cached : Option (String × Nat)
  deriving Repr, DecidableEq

/-- `` `enckey-${currentMinute}-${crypto.randomUUID()}` ``. -/
def mkEncKeyUuid (minute : Nat) (u : String) : String :=
  "enckey-" ++ natStr minute ++ "-" ++ u

/-- `getOrGenerateMinuteEncryptionKey`: return the cached key unless the
cached timestamp's minute epoch differs from `floor(now / 60000)` (or no key
is cached yet), in which case generate and cache a fresh one stamped `now`. -/
def getOrGenerateMinuteEncryptionKey (now : Nat) (freshUuid : String)
    (s : MinuteKeyState) : String × MinuteKeyState :=
  let currentMinute := now / 60000
  match s.cached with
  | some (kU, ts) =>
    if ts / 60000 = currentMinute then (kU, s)
    else
      let kU2 := mkEncKeyUuid currentMinute freshUuid
      (kU2, ⟨some (kU2, now)⟩)
  | none =>
    let kU2 := mkEncKeyUuid currentMinute freshUuid
    (kU2, ⟨some (kU2, now)⟩)

/-- The minute epoch is recoverable from a generated key uuid: drop
`"enckey-"`, read the digit run up to the next dash. -/
def minuteOfKeyUuid (s : String) : Nat :=
  valOfDigits ((s.data.drop 7).takeWhile Char.isDigit)

theorem minuteOfKeyUuid_mk (minute : Nat) (u : String) :
    minuteOfKeyUuid (mkEncKeyUuid minute u) = minute := by
  have hd : (mkEncKeyUuid minute u).data
      = 'e' :: 'n' :: 'c' :: 'k' :: 'e' :: 'y' :: '-' ::
        (natDigits minute ++ '-' :: u.data) := by
    simp [mkEncKeyUuid, natStr, String.data_append]
  unfold minuteOfKeyUuid
  rw [hd]
  simp only [List.drop_succ_cons, List.drop_zero]
  rw [takeWhile_run_append _ _ _ _ (natDigits_all_digit minute) (by decide),
    valOfDigits_natDigits]

/-- Well-formed service state: any cached key uuid was generated by
`mkEncKeyUuid` from its own timestamp's minute epoch. -/
def WfKeyState (s : MinuteKeyState) : Prop :=
  ∀ kU ts, s.cached = some (kU, ts) → ∃ u, kU = mkEncKeyUuid (ts / 60000) u

theorem wfKeyState_none : WfKeyState ⟨none⟩ := by
  intro kU ts h
  simp at h

theorem getOrGenerate_result (now : Nat) (freshUuid : String)
    (s : MinuteKeyState) (hwf : WfKeyState s) :
    (∃ u, (getOrGenerateMinuteEncryptionKey now freshUuid s).1
        = mkEncKeyUuid (now / 60000) u)
    ∧ WfKeyState (getOrGenerateMinuteEncryptionKey now freshUuid s).2
    ∧ (∃ kU ts, (getOrGenerateMinuteEncryptionKey now freshUuid s).2.cached
          = some (kU, ts)
        ∧ ts / 60000 = now / 60000
        ∧ (getOrGenerateMinuteEncryptionKey now freshUuid s).1 = kU) := by
  rcases hs : s.cached with _ | ⟨kU, ts⟩
  · simp only [getOrGenerateMinuteEncryptionKey, hs]
    refine ⟨⟨freshUuid, rfl⟩, ?_, _, now, rfl, rfl, rfl⟩
    intro kU2 ts2 h2
    simp only [Option.some_inj, Prod.mk.injEq] at h2
    exact ⟨freshUuid, by rw [← h2.1, ← h2.2]⟩
  · simp only [getOrGenerateMinuteEncryptionKey, hs]
    by_cases hm : ts / 60000 = now / 60000
    · rw [if_pos hm]
      obtain ⟨u, hu⟩ := hwf kU ts hs
      exact ⟨⟨u, by rw [hu, hm]⟩, hwf, kU, ts, hs, hm, rfl⟩
    · rw [if_neg hm]
      refine ⟨⟨freshUuid, rfl⟩, ?_, _, now, rfl, rfl, rfl⟩
      intro kU2 ts2 h2
      simp only [Option.some_inj, Prod.mk.injEq] at h2
      exact ⟨freshUuid, by rw [← h2.1, ← h2.2]⟩

/-- The cached key is returned exactly when its stored timestamp lies in the
current minute epoch. -/
theorem getOrGenerate_cached_iff (now : Nat) (freshUuid : String)
    (kU : String) (ts : Nat) :
    getOrGenerateMinuteEncryptionKey now freshUuid ⟨some (kU, ts)⟩
      = (if ts / 60000 = now / 60000 then (kU, ⟨some (kU, ts)⟩)
        else (mkEncKeyUuid (now / 60000) freshUuid,
          ⟨some (mkEncKeyUuid (now / 60000) freshUuid, now)⟩)) := by
  unfold getOrGenerateMinuteEncryptionKey
  by_cases hm : ts / 60000 = now / 60000 <;> simp [hm]


theorem mkEncKeyUuid_ne (m1 m2 : Nat) (u1 u2 : String) (h : m1 ≠ m2) :
    mkEncKeyUuid m1 u1 ≠ mkEncKeyUuid m2 u2 := by
  intro heq
  have h2 := congrArg minuteOfKeyUuid heq
  rw [minuteOfKeyUuid_mk, minuteOfKeyUuid_mk] at h2
  exact h h2

/-! ## Symbolic authenticated encryption

`deriveKeyFromUuid` is HKDF-SHA256 of the fixed master key with the uuid as
salt: deterministic in the uuid, and distinct uuids are modelled as yielding
distinct keys, so a key is identified by its salt string.  An AES-256-GCM
package `[IV ‖ AuthTag ‖ Ciphertext]` is modelled as the pair of the key
identity it was sealed under and the plaintext; authenticated decryption
returns the plaintext exactly when the presented key matches, and fails
(`none`, a `GCM` auth-tag error) otherwise. -/

def deriveKeyFromUuid (uuid : String) : String := uuid

structure SymCipher (α : Type) where
  keySalt : String
  plain : α
  deriving Repr, DecidableEq

def gcmDecrypt (key : String) (c : SymCipher α) : Option α :=
  if c.keySalt = key then some c.plain else none

/-- The fields of `encryptBuffer`'s result that the claims read. -/
structure EncryptResult (α : Type) where
  encryptedBuffer : SymCipher α
  packageUuid : String
  encryptionKeyUuid : String
  deriving Repr, DecidableEq

/-- `encryptBuffer(plaintextData, packageUuid)`: always encrypts under the
current minute key (the package uuid is carried for correlation only). -/
def encryptBuffer (plain : α) (packageUuid : String) (now : Nat)
    (freshUuid : String) (s : MinuteKeyState) : EncryptResult α × MinuteKeyState :=
  let r := getOrGenerateMinuteEncryptionKey now freshUuid s
  (⟨⟨deriveKeyFromUuid r.1, plain⟩, packageUuid, r.1⟩, r.2)

/-- `decryptFile(path, packageUuid)`: derive the key from the package uuid
and run authenticated decryption. -/
def decryptFile (c : SymCipher α) (packageUuid : String) : Option α :=
  gcmDecrypt (deriveKeyFromUuid packageUuid) c

/-- `baseTags` of `uploadBatchParquetEncrypted`. -/
def encryptedBaseTags (utcTimestamp : String) (aircraftCount : Nat)
    (fileSizeKB packageUuid encryptionKeyUuid dataHash : String)
    (snapshotTime : Nat) : List (String × String) :=
  [("Content-Type", "application/octet-stream"),
   ("App-Name", "DeradNetworkBackup"),
   ("Timestamp", utcTimestamp),
   ("Format", "Parquet"),
   ("Aircraft-Count", natStr aircraftCount),
   ("File-Size-KB", fileSizeKB),
   ("Encrypted", "true"),
   ("Encryption-Algorithm", "AES-256-GCM"),
   ("Package-UUID", packageUuid),
   ("Encryption-Key-UUID", encryptionKeyUuid),
   ("Data-Hash", dataHash),
   ("Schema-Version", "2.0"),
   ("Schema-Type", "batch-aircraft"),
   ("Data-Format", "aviation-realtime-batch"),
   ("Batch-Timestamp", natStr snapshotTime)]

def tagValue (tags : List (String × String)) (nm : String) : Option String :=
  (tags.find? (fun p => p.1 == nm)).map (fun p => p.2)

theorem tagValue_encKeyUuid (ut : String) (ac : Nat) (fs pu ek dh : String)
    (st : Nat) :
    tagValue (encryptedBaseTags ut ac fs pu ek dh st) "Encryption-Key-UUID"
      = some ek := rfl

/-- The tag slice of `uploadBatchParquetEncrypted`: the buffer is encrypted
once (via `prepareEncryptedParquetBuffer` → `encryptBuffer`) and the tags
carry the minute key uuid of that encryption. -/
def uploadBatchParquetEncrypted (plain : α) (aircraftCount snapshotTime : Nat)
    (packageUuid utcTimestamp fileSizeKB dataHash : String) (now : Nat)
    (freshUuid : String) (s : MinuteKeyState) :
    List (String × String) × SymCipher α × MinuteKeyState :=
  let r := encryptBuffer plain packageUuid now freshUuid s
  (encryptedBaseTags utcTimestamp aircraftCount fileSizeKB packageUuid
      r.1.encryptionKeyUuid dataHash snapshotTime,
    r.1.encryptedBuffer, r.2)

/-- Claim C4.  The encryption-key uuid is minute-based: the cached key is
returned exactly when its stored timestamp falls in the current minute epoch
`floor(now / 60000)` and a fresh `enckey-(minute)-(uuid)` is generated and
cached otherwise; consequently two encrypted uploads in the same minute
epoch carry the same `Encryption-Key-UUID` tag, and (from any well-formed
state) uploads in different minute epochs carry different ones. -/
theorem claim_C4_minute_key (plain1 plain2 : List Nat)
    (ac1 ac2 st1 st2 : Nat) (pu1 pu2 ut1 ut2 fs1 fs2 dh1 dh2 : String)
    (now1 now2 : Nat) (fresh1 fresh2 : String) (s0 : MinuteKeyState)
    (hwf : WfKeyState s0) :
    (∀ now fresh kU ts,
      getOrGenerateMinuteEncryptionKey now fresh ⟨some (kU, ts)⟩
        = (if ts / 60000 = now / 60000 then (kU, ⟨some (kU, ts)⟩)
          else (mkEncKeyUuid (now / 60000) fresh,
            ⟨some (mkEncKeyUuid (now / 60000) fresh, now)⟩)))
    ∧ (let up1 := uploadBatchParquetEncrypted plain1 ac1 st1 pu1 ut1 fs1 dh1
          now1 fresh1 s0
      let up2 := uploadBatchParquetEncrypted plain2 ac2 st2 pu2 ut2 fs2 dh2
          now2 fresh2 up1.2.2
      tagValue up1.1 "Encryption-Key-UUID"
          = some (getOrGenerateMinuteEncryptionKey now1 fresh1 s0).1
        ∧ (now1 / 60000 = now2 / 60000 →
            tagValue up2.1 "Encryption-Key-UUID"
              = tagValue up1.1 "Encryption-Key-UUID")
        ∧ (now1 / 60000 ≠ now2 / 60000 →
            tagValue up2.1 "Encryption-Key-UUID"
              ≠ tagValue up1.1 "Encryption-Key-UUID")) := by
  refine ⟨getOrGenerate_cached_iff, ?_⟩
  obtain ⟨⟨v1, hv1⟩, hwf1, kU, ts, hc1, hts1, hk1⟩ :=
    getOrGenerate_result now1 fresh1 s0 hwf
  have hstate : (getOrGenerateMinuteEncryptionKey now1 fresh1 s0).2
      = ⟨some (kU, ts)⟩ := by
    cases h2 : (getOrGenerateMinuteEncryptionKey now1 fresh1 s0).2 with
    | mk c => rw [h2] at hc1; simp at hc1; rw [hc1]
  simp only [uploadBatchParquetEncrypted, encryptBuffer]
  refine ⟨tagValue_encKeyUuid _ _ _ _ _ _ _, ?_, ?_⟩
  · intro hmin
    rw [tagValue_encKeyUuid, tagValue_encKeyUuid]
    show some (getOrGenerateMinuteEncryptionKey now2 fresh2
        (getOrGenerateMinuteEncryptionKey now1 fresh1 s0).2).1 = _
    rw [hstate, getOrGenerate_cached_iff,
      if_pos (by rw [hts1, hmin]), hk1]
  · intro hmin
    rw [tagValue_encKeyUuid, tagValue_encKeyUuid]
    obtain ⟨⟨v2, hv2⟩, _, _⟩ :=
      getOrGenerate_result now2 fresh2 _ hwf1
    show some (getOrGenerateMinuteEncryptionKey now2 fresh2
        (getOrGenerateMinuteEncryptionKey now1 fresh1 s0).2).1
      ≠ some (getOrGenerateMinuteEncryptionKey now1 fresh1 s0).1
    rw [hv1, hv2]
    intro hcontra
    simp only [Option.some_inj] at hcontra
    exact mkEncKeyUuid_ne _ _ _ _ (fun h => hmin h.symm) hcontra

/-- Witness for claim C4: a cold service, two uploads in minute epoch 1
(sharing their key uuid) and one in minute epoch 2 (differing). -/
theorem claim_C4_minute_key_witness :
    (let up1 := uploadBatchParquetEncrypted [1, 2] 1 7 "pu1" "ut" "fs" "dh"
        60000 "aaaa" ⟨none⟩
    let up2 := uploadBatchParquetEncrypted [3] 1 8 "pu2" "ut" "fs" "dh"
        60500 "bbbb" up1.2.2
    tagValue up2.1 "Encryption-Key-UUID" = tagValue up1.1 "Encryption-Key-UUID")
    ∧ (let up1 := uploadBatchParquetEncrypted [1, 2] 1 7 "pu1" "ut" "fs" "dh"
        60000 "aaaa" ⟨none⟩
    let up2 := uploadBatchParquetEncrypted [3] 1 8 "pu2" "ut" "fs" "dh"
        120000 "bbbb" up1.2.2
    tagValue up2.1 "Encryption-Key-UUID" ≠ tagValue up1.1 "Encryption-Key-UUID") := by
  constructor
  · exact (claim_C4_minute_key [1, 2] [3] 1 1 7 8 "pu1" "pu2" "ut" "ut" "fs" "fs"
      "dh" "dh" 60000 60500 "aaaa" "bbbb" ⟨none⟩ wfKeyState_none).2.2.1 (by decide)
  · exact (claim_C4_minute_key [1, 2] [3] 1 1 7 8 "pu1" "pu2" "ut" "ut" "fs" "fs"
      "dh" "dh" 60000 120000 "aaaa" "bbbb" ⟨none⟩ wfKeyState_none).2.2.2 (by decide)


/-! ## The fingerprinter (claim C8)

Source: `AircraftTrackerService.calculateAircraftHash`, which builds
`` `${lat}|${lon}|${alt_baro}|${alt_geom}|${gs}|${track}|${baro_rate}|${squawk}|${emergency}|${flight}` ``
and hashes it with `xxh64` (seed 0) from `@node-rs/xxhash`, rendering the
64-bit result in lowercase hex via `toString(16)`.  XXH64 is implemented in
full over the UTF-8 bytes; the loop fuels equal the byte count, exactly
bounding the source loops. -/

def xxP1 : Nat := 11400714785074694791
def xxP2 : Nat := 14029467366897019727
def xxP3 : Nat := 1609587929392839161
def xxP4 : Nat := 9650029242287828579
def xxP5 : Nat := 2870177450012600261

/-- 64-bit rotate left (operands below `2 ^ 64`). -/
def rotl64 (x n : Nat) : Nat := ((x <<< n) % 2 ^ 64) ||| (x >>> (64 - n))

/-- Little-endian word value of a byte list. -/
def readLE (bytes : List Nat) : Nat := bytes.foldr (fun b acc => acc * 256 + b) 0

def xxRound (acc input : Nat) : Nat :=
  rotl64 ((acc + input * xxP2) % 2 ^ 64) 31 * xxP1 % 2 ^ 64

def xxMergeRound (acc v : Nat) : Nat :=
  ((acc ^^^ xxRound 0 v) * xxP1 % 2 ^ 64 + xxP4) % 2 ^ 64

/-- The 32-byte stripe loop (fuel bounds the iteration count). -/
def xxStripes (fuel : Nat) (v1 v2 v3 v4 : Nat) (bytes : List Nat) :
    Nat × Nat × Nat × Nat × List Nat :=
  match fuel with
  | 0 => (v1, v2, v3, v4, bytes)
  | fuel + 1 =>
    if bytes.length ≥ 32 then
      xxStripes fuel
        (xxRound v1 (readLE (bytes.take 8)))
        (xxRound v2 (readLE ((bytes.drop 8).take 8)))
        (xxRound v3 (readLE ((bytes.drop 16).take 8)))
        (xxRound v4 (readLE ((bytes.drop 24).take 8)))
        (bytes.drop 32)
    else (v1, v2, v3, v4, bytes)

/-- The 8-byte tail loop. -/
def xxTail8 (fuel : Nat) (acc : Nat) (bytes : List Nat) : Nat × List Nat :=
  match fuel with
  | 0 => (acc, bytes)
  | fuel + 1 =>
    if bytes.length ≥ 8 then
      xxTail8 fuel
        ((rotl64 (acc ^^^ xxRound 0 (readLE (bytes.take 8))) 27 * xxP1 % 2 ^ 64
            + xxP4) % 2 ^ 64)
        (bytes.drop 8)
    else (acc, bytes)

def xxAvalanche (acc : Nat) : Nat :=
  let a1 := acc ^^^ (acc >>> 33)
  let a2 := a1 * xxP2 % 2 ^ 64
  let a3 := a2 ^^^ (a2 >>> 29)
  let a4 := a3 * xxP3 % 2 ^ 64
  a4 ^^^ (a4 >>> 32)

def xxh64 (seed : Nat) (bytes : List Nat) : Nat :=
  let len := bytes.length
  let step1 :=
    if len ≥ 32 then
      let v1 := (seed + xxP1 + xxP2) % 2 ^ 64
      let v2 := (seed + xxP2) % 2 ^ 64
      let v3 := seed % 2 ^ 64
      let v4 := (seed + (2 ^ 64 - xxP1 % 2 ^ 64)) % 2 ^ 64
      let r := xxStripes len v1 v2 v3 v4 bytes
      let acc := (rotl64 r.1 1 + rotl64 r.2.1 7 + rotl64 r.2.2.1 12
          + rotl64 r.2.2.2.1 18) % 2 ^ 64
      let acc := xxMergeRound acc r.1
      let acc := xxMergeRound acc r.2.1
      let acc := xxMergeRound acc r.2.2.1
      let acc := xxMergeRound acc r.2.2.2.1
      (acc, r.2.2.2.2)
    else ((seed + xxP5) % 2 ^ 64, bytes)
  let acc1 := (step1.1 + len) % 2 ^ 64
  let step2 := xxTail8 len acc1 step1.2
  let step3 :=
    if step2.2.length ≥ 4 then
      ((rotl64 (step2.1 ^^^ (readLE (step2.2.take 4) * xxP1 % 2 ^ 64)) 23
          * xxP2 % 2 ^ 64 + xxP3) % 2 ^ 64,
        step2.2.drop 4)
    else step2
  let acc4 := step3.2.foldl
    (fun acc b => rotl64 (acc ^^^ (b * xxP5 % 2 ^ 64)) 11 * xxP1 % 2 ^ 64) step3.1
  xxAvalanche acc4

def hexDigitChar (n : Nat) : Char :=
  match n with
  | 0 => '0' | 1 => '1' | 2 => '2' | 3 => '3' | 4 => '4'
  | 5 => '5' | 6 => '6' | 7 => '7' | 8 => '8' | 9 => '9'
  | 10 => 'a' | 11 => 'b' | 12 => 'c' | 13 => 'd' | 14 => 'e' | 15 => 'f'
  | _ => '0'

def natHexGo (fuel n : Nat) : List Char :=
  match fuel with
  | 0 => []
  | fuel + 1 =>
    if n < 16 then [hexDigitChar n]
    else natHexGo fuel (n / 16) ++ [hexDigitChar (n % 16)]

/-- `BigInt.prototype.toString(16)`: minimal lowercase hex digits. -/
def natHex (n : Nat) : String := ⟨natHexGo (n + 1) n⟩

/-- UTF-8 encoding of one character. -/
def charUtf8 (c : Char) : List Nat :=
  let n := c.toNat
  if n < 128 then [n]
  else if n < 2048 then [192 + n / 64, 128 + n % 64]
  else if n < 65536 then [224 + n / 4096, 128 + (n / 64) % 64, 128 + n % 64]
  else [240 + n / 262144, 128 + (n / 4096) % 64, 128 + (n / 64) % 64, 128 + n % 64]

def utf8Bytes (s : String) : List Nat := (s.data.map charUtf8).flatten

/-- `${v}` rendering of an optional field inside a template literal: a
missing field renders as the string `"undefined"`. -/
def renderField : Option String → String
  | none => "undefined"
  | some s => s

/-- The canonical fingerprint string of `calculateAircraftHash`. -/
def canonicalHashString (a : Aircraft) : String :=
  renderField a.lat ++ "|" ++ renderField a.lon ++ "|"
    ++ renderField a.alt_baro ++ "|" ++ renderField a.alt_geom ++ "|"
    ++ renderField a.gs ++ "|" ++ renderField a.track ++ "|"
    ++ renderField a.baro_rate ++ "|" ++ renderField a.squawk ++ "|"
    ++ renderField a.emergency ++ "|" ++ renderField a.flight

def calculateAircraftHash (a : Aircraft) : String :=
  natHex (xxh64 0 (utf8Bytes (canonicalHashString a)))

/-- Modelled from the spec: the canonical string as §4.B words it, in which
every missing field renders as an **empty** substring (for the refinement
comparison against the source's `canonicalHashString`). -/
def specCanonicalString (a : Aircraft) : String :=
  a.lat.getD "" ++ "|" ++ a.lon.getD "" ++ "|"
    ++ a.alt_baro.getD "" ++ "|" ++ a.alt_geom.getD "" ++ "|"
    ++ a.gs.getD "" ++ "|" ++ a.track.getD "" ++ "|"
    ++ a.baro_rate.getD "" ++ "|" ++ a.squawk.getD "" ++ "|"
    ++ a.emergency.getD "" ++ "|" ++ a.flight.getD ""

/-- Modelled from the spec: the fingerprint §4.B describes — the same hash
over the empty-rendering canonical string. -/
def specFingerprint (a : Aircraft) : String :=
  natHex (xxh64 0 (utf8Bytes (specCanonicalString a)))

/-- The S1 observation with only some of the ten projected fields present. -/
def c8Obs : Aircraft :=
  { hex := "48436b", flight := some "KLM855", lat := some "40.9258" }


/-- Counterexample to claim C8: the fingerprint is **not** the hash of the
spec's canonical string (missing fields render as `"undefined"`, not as an
empty substring), exhibited on a concrete observation with missing fields. -/
theorem claim_C8_counterexample :
    calculateAircraftHash c8Obs ≠ specFingerprint c8Obs := by
  decide

/-- Claim C8, amended.  The fingerprint is the 64-bit XXH64 (seed 0) of the
canonical string `lat|lon|alt_baro|alt_geom|gs|track|baro_rate|squawk|emergency|flight`
in which every missing field renders as the substring `"undefined"`; it is
deterministic, depending only on those ten projected fields. -/
theorem claim_C8_amended :
    (∀ a b : Aircraft,
      a.lat = b.lat → a.lon = b.lon → a.alt_baro = b.alt_baro →
      a.alt_geom = b.alt_geom → a.gs = b.gs → a.track = b.track →
      a.baro_rate = b.baro_rate → a.squawk = b.squawk →
      a.emergency = b.emergency → a.flight = b.flight →
      calculateAircraftHash a = calculateAircraftHash b)
    ∧ canonicalHashString { hex := "48436b" }
        = "undefined|undefined|undefined|undefined|undefined|undefined|undefined|undefined|undefined|undefined"
    ∧ (∀ a : Aircraft,
        calculateAircraftHash a = natHex (xxh64 0 (utf8Bytes (canonicalHashString a)))) := by
  refine ⟨?_, by decide, fun a => rfl⟩
  intro a b h1 h2 h3 h4 h5 h6 h7 h8 h9 h10
  unfold calculateAircraftHash canonicalHashString
  rw [h1, h2, h3, h4, h5, h6, h7, h8, h9, h10]

/-- Witness for the amended claim C8: two observations agreeing on the ten
projected fields but differing in `hex` have equal fingerprints. -/
theorem claim_C8_amended_witness :
    calculateAircraftHash { hex := "aaa111", lat := some "1.5" }
      = calculateAircraftHash { hex := "bbb222", lat := some "1.5" } :=
  claim_C8_amended.1 _ _ rfl rfl rfl rfl rfl rfl rfl rfl rfl rfl


/-! ## The track store (claim C5)

Source: the bulk upsert shared by `uploadBatch` / `uploadEncryptedBatch`
(lookup of existing rows, update / insert partition, one upserting `save`)
and `markMissingAircraftAsOutOfRange` (the bulk out-of-range status
update). -/

structure TrackRow where
  hex : String
  callsign : Option String
  registration : Option String
  aircraft_type : Option String
  first_seen : Nat
  last_seen : Nat
  last_uploaded : Nat
  last_tx_id : String
  upload_count : Nat
  total_updates : Nat
  status : String
  lastPosition : Option String × Option String × Option String
  deriving Repr, DecidableEq

/-- `x?.trim() || fallback`: a missing or blank-after-trim value keeps the
fallback. -/
def trimOrKeep (v fallback : Option String) : Option String :=
  match v with
  | none => fallback
  | some s => if s.trim = "" then fallback else some s.trim

/-- `x || null`: a missing or empty value becomes null. -/
def orNull (v : Option String) : Option String :=
  match v with
  | none => none
  | some s => if s = "" then none else some s

/-- The update path of the bulk upsert. -/
def updateExistingTrack (existing : TrackRow) (item : BatchEvent)
    (txId : String) (now : Nat) : TrackRow :=
  { existing with
    last_seen := now
    last_uploaded := now
    last_tx_id := txId
    upload_count := existing.upload_count + 1
    total_updates := existing.total_updates + 1
    callsign := trimOrKeep item.aircraft.flight existing.callsign
    lastPosition := (item.aircraft.lat, item.aircraft.lon, item.aircraft.alt_baro) }

/-- The insert path of the bulk upsert. -/
def insertTrack (item : BatchEvent) (txId : String) (now : Nat) : TrackRow :=
  { hex := item.hex
    callsign := trimOrKeep item.aircraft.flight none
    registration := orNull item.aircraft.r
    aircraft_type := orNull item.aircraft.t
    first_seen := now
    last_seen := now
    last_uploaded := now
    last_tx_id := txId
    upload_count := 1
    total_updates := 0
    status := "active"
    lastPosition := (item.aircraft.lat, item.aircraft.lon, item.aircraft.alt_baro) }

/-- `repo.save(allTracks)`: sequential upsert by primary key `hex`. -/
def saveTracks (db : List TrackRow) (tracks : List TrackRow) : List TrackRow :=
  tracks.foldl (fun acc t =>
    if acc.any (fun row => row.hex == t.hex) then
      acc.map (fun row => if row.hex == t.hex then t else row)
    else acc ++ [t]) db

/-- The bulk upsert of `uploadBatch` / `uploadEncryptedBatch`: one lookup
against the pre-state, rows found there are updated (shared row objects, so
several batch items targeting one hex update it cumulatively), the rest are
inserted, and one `save` writes everything back. -/
def bulkUpsert (db : List TrackRow) (batch : List BatchEvent) (txId : String)
    (now : Nat) : List TrackRow :=
  let toUpdate := (db.filter
      (fun row => batch.any (fun it => it.hex == row.hex))).map
    (fun row => (batch.filter (fun it => it.hex == row.hex)).foldl
      (fun r it => updateExistingTrack r it txId now) row)
  let toInsert := (batch.filter
      (fun it => !(db.any (fun row => row.hex == it.hex)))).map
    (fun it => insertTrack it txId now)
  saveTracks db (toUpdate ++ toInsert)

/-- One row's share of the bulk
`UPDATE ... SET status = 'out_of_range', last_seen = now`. -/
def markOutOfRangeRow (row : TrackRow) (now : Nat) : TrackRow :=
  { row with status := "out_of_range", last_seen := now }

/-- `markMissingAircraftAsOutOfRange`: the bulk status update applied to the
evicted hexes. -/
def markMissingAircraftAsOutOfRange (db : List TrackRow)
    (outOfRangeHexes : List String) (now : Nat) : List TrackRow :=
  db.map (fun row =>
    if outOfRangeHexes.contains row.hex then markOutOfRangeRow row now else row)

/-- The S1 batch event (one aircraft). -/
def c5Item : BatchEvent :=
  { aircraft := { hex := "48436b", flight := some "KLM855" }
    snapshotTime := 1751069515
    hex := "48436b" }

theorem saveTracks_mem :
    ∀ (tracks db : List TrackRow) (r : TrackRow),
      r ∈ saveTracks db tracks → r ∈ db ∨ r ∈ tracks := by
  intro tracks
  induction tracks with
  | nil => intro db r hr; exact Or.inl hr
  | cons t rest ih =>
    intro db r hr
    have step := ih _ r hr
    rcases step with hstep | hrest
    · by_cases hc : db.any (fun row => row.hex == t.hex)
      · simp only [saveTracks, List.foldl_cons, hc, if_true] at hstep hr ⊢
        rcases List.mem_map.mp hstep with ⟨row, hrow, hreq⟩
        by_cases he : row.hex == t.hex
        · rw [he] at hreq
          simp at hreq
          exact Or.inr (by simp [← hreq])
        · rw [if_neg (by simpa using he)] at hreq
          exact Or.inl (hreq ▸ hrow)
      · simp only [saveTracks, List.foldl_cons, hc, if_false, Bool.false_eq_true] at hstep
        rcases List.mem_append.mp hstep with hdb | hone
        · exact Or.inl hdb
        · exact Or.inr (by simp at hone; simp [hone])
    · exact Or.inr (by simp [hrest])

/-- The row-wise invariant of claim C5. -/
def rowInv (r : TrackRow) : Prop :=
  r.first_seen ≤ r.last_seen ∧ r.last_seen ≤ r.last_uploaded

instance (r : TrackRow) : Decidable (rowInv r) := by
  unfold rowInv
  infer_instance

theorem updateExistingTrack_inv (r : TrackRow) (item : BatchEvent)
    (txId : String) (now : Nat) (h : r.first_seen ≤ now) :
    rowInv (updateExistingTrack r item txId now)
      ∧ (updateExistingTrack r item txId now).first_seen = r.first_seen := by
  unfold rowInv updateExistingTrack
  exact ⟨⟨h, le_rfl⟩, rfl⟩

theorem foldl_update_inv (items : List BatchEvent) (txId : String) (now : Nat) :
    ∀ r : TrackRow, r.first_seen ≤ now → rowInv r →
      rowInv (items.foldl (fun a it => updateExistingTrack a it txId now) r)
        ∧ (items.foldl (fun a it => updateExistingTrack a it txId now) r).first_seen
            = r.first_seen := by
  induction items with
  | nil => intro r h hi; exact ⟨hi, rfl⟩
  | cons it rest ih =>
    intro r h hi
    simp only [List.foldl_cons]
    obtain ⟨h1, h2⟩ := updateExistingTrack_inv r it txId now h
    obtain ⟨h3, h4⟩ := ih (updateExistingTrack r it txId now) (by rw [h2]; exact h) h1
    exact ⟨h3, by rw [h4, h2]⟩

theorem insertTrack_inv (item : BatchEvent) (txId : String) (now : Nat) :
    rowInv (insertTrack item txId now) := by
  unfold rowInv insertTrack
  exact ⟨le_rfl, le_rfl⟩


/-- Counterexample to claim C5: a row inserted by a successful upload at
`t = 1000` and then swept by the out-of-range bulk update at `t = 2000`
violates `lastSeenMs ≤ lastUploadedMs` — the update advances `last_seen`
but leaves `last_uploaded` untouched. -/
theorem claim_C5_counterexample :
    ¬ (∀ r ∈ markMissingAircraftAsOutOfRange
          (bulkUpsert [] [c5Item] "tx1" 1000) ["48436b"] 2000,
        r.first_seen ≤ r.last_seen ∧ r.last_seen ≤ r.last_uploaded) := by
  decide

/-- Claim C5, amended.  Both paths of the bulk upsert establish the full
invariant `firstSeenMs ≤ lastSeenMs ≤ lastUploadedMs` (inserts set all three
to `now`; updates keep `firstSeen` and set the other two to `now`), but the
bulk out-of-range status update only preserves `firstSeenMs ≤ lastSeenMs`:
it sets `last_seen := now` without touching `last_uploaded`, so
`lastSeenMs ≤ lastUploadedMs` can be broken by it. -/
theorem claim_C5_amended (db : List TrackRow) (batch : List BatchEvent)
    (txId : String) (now : Nat) (hexes : List String)
    (hdb : ∀ r ∈ db, rowInv r ∧ r.first_seen ≤ now) :
    (∀ r ∈ bulkUpsert db batch txId now, rowInv r)
    ∧ (∀ r ∈ markMissingAircraftAsOutOfRange db hexes now,
        r.first_seen ≤ r.last_seen) := by
  constructor
  · intro r hr
    rcases saveTracks_mem _ db r hr with hin | hnew
    · exact (hdb r hin).1
    · rcases List.mem_append.mp hnew with hupd | hins
      · rcases List.mem_map.mp hupd with ⟨row, hrow, hreq⟩
        have hrow2 := List.mem_of_mem_filter hrow
        exact hreq ▸ (foldl_update_inv _ txId now row (hdb row hrow2).2
          (hdb row hrow2).1).1
      · rcases List.mem_map.mp hins with ⟨it, _, hreq⟩
        exact hreq ▸ insertTrack_inv it txId now
  · intro r hr
    rcases List.mem_map.mp hr with ⟨row, hrow, hreq⟩
    by_cases hc : hexes.contains row.hex
    · rw [if_pos hc] at hreq
      subst hreq
      exact (hdb row hrow).2
    · rw [if_neg hc] at hreq
      subst hreq
      exact (hdb row hrow).1.1

/-- Witness for the amended claim C5 on a concrete run: upsert into the
database produced by an earlier upload, then sweep an unrelated hex. -/
theorem claim_C5_amended_witness :
    (∀ r ∈ bulkUpsert (bulkUpsert [] [c5Item] "tx1" 1000) [c5Item] "tx2" 2000,
      rowInv r)
    ∧ (∀ r ∈ markMissingAircraftAsOutOfRange
          (bulkUpsert [] [c5Item] "tx1" 1000) ["ffffff"] 2000,
        r.first_seen ≤ r.last_seen) :=
  claim_C5_amended (bulkUpsert [] [c5Item] "tx1" 1000) [c5Item] "tx2" 2000
    ["ffffff"] (by decide)


/-! ## The feed client (claim C7)

Source: `AircraftTrackerService.fetchAircraftData`.  One call is driven by
the response the environment hands back: a `304`, a `200` whose body either
parses (`some body`) or throws (`none`), a request timeout, or a network
error.  The cached body and validators plus the fetch counters form the
state. -/

structure FetchState where
  lastETag : Option String
  lastModified : Option String
  cachedAircraftData : Option String
  total304Responses : Nat
  total200Responses : Nat
  deriving Repr, DecidableEq

inductive FetchResponse where
  | status304 : FetchResponse
  | status200 (etag lastModified : Option String) (parsed : Option String) :
      FetchResponse
  | timeout : FetchResponse
  | networkError : FetchResponse
  deriving Repr, DecidableEq

/-- One `fetchAircraftData` call: `304` resolves the cached body and bumps
the hit counter; `200` bumps the download counter, then either stores the
parsed body and validators or (on a parse error) clears all three and
rejects; a timeout or request error just rejects. -/
def fetchAircraftData (s : FetchState) (r : FetchResponse) :
    FetchState × Except String (Option String) :=
  match r with
  | .status304 =>
    ({ s with total304Responses := s.total304Responses + 1 },
      .ok s.cachedAircraftData)
  | .status200 etag lastModified parsed =>
    let s1 := { s with total200Responses := s.total200Responses + 1 }
    match parsed with
    | some d =>
      ({ s1 with
          lastETag := etag
          lastModified := lastModified
          cachedAircraftData := some d },
        .ok (some d))
    | none =>
      ({ s1 with
          cachedAircraftData := none
          lastETag := none
          lastModified := none },
        .error "parse error")
  | .timeout => (s, .error "Request timeout")
  | .networkError => (s, .error "request error")

def c7State : FetchState :=
  { lastETag := some "etag1"
    lastModified := some "lm1"
    cachedAircraftData := some "body1"
    total304Responses := 3
    total200Responses := 5 }

/-- Counterexample to claim C7: a request timeout does **not** drop the
cached body — the timeout handler only destroys the request and rejects;
`cachedAircraftData`, `lastETag` and `lastModified` are left in place. -/
theorem claim_C7_counterexample :
    ¬ ((fetchAircraftData c7State .timeout).1.cachedAircraftData = none) := by
  decide

/-- Claim C7, amended.  On `304` the previously-cached body is returned and
the hit counter incremented (cache and validators untouched); on a parsed
`200` the cache and validators are replaced and a subsequent `304` serves
exactly the new body; a JSON parse error drops the cached body and the
validators and surfaces the error; a request timeout surfaces
`Request timeout` but leaves the state — including the cached body —
entirely unchanged, and nothing retries. -/
theorem claim_C7_amended (s : FetchState) (etag lm : Option String)
    (d : String) :
    (fetchAircraftData s .status304
      = ({ s with total304Responses := s.total304Responses + 1 },
        .ok s.cachedAircraftData))
    ∧ ((fetchAircraftData s (.status200 etag lm (some d))).2 = .ok (some d)
      ∧ (fetchAircraftData s (.status200 etag lm (some d))).1.lastETag = etag
      ∧ (fetchAircraftData s (.status200 etag lm (some d))).1.lastModified = lm
      ∧ (fetchAircraftData s
          (.status200 etag lm (some d))).1.total200Responses
        = s.total200Responses + 1
      ∧ (fetchAircraftData
          (fetchAircraftData s (.status200 etag lm (some d))).1 .status304).2
        = .ok (some d))
    ∧ ((fetchAircraftData s (.status200 etag lm none)).2 = .error "parse error"
      ∧ (fetchAircraftData s (.status200 etag lm none)).1.cachedAircraftData
        = none
      ∧ (fetchAircraftData s (.status200 etag lm none)).1.lastETag = none
      ∧ (fetchAircraftData s (.status200 etag lm none)).1.lastModified = none)
    ∧ (fetchAircraftData s .timeout = (s, .error "Request timeout")) := by
  refine ⟨rfl, ⟨rfl, rfl, rfl, rfl, rfl⟩, ⟨rfl, rfl, rfl, rfl⟩, rfl⟩

/-! ## `getStats` and its state effects (claim C10)

Source: `AircraftTrackerService.getStats`, `getCurrentTpm` and
`updateTpmEMA`.  `getStats` is driven by the wall clock and the database
`COUNT(*)` result. -/

structure TrackerState where
  cachedTotalTracks : Nat
  lastTracksCountUpdate : Nat
  tpmBuckets : List Nat
  currentBucketIndex : Nat
  lastBucketUpdate : Nat
  tpmHistory : List Nat
  lastTpmHistoryUpdate : Nat
  peakTpm : Nat
  statsDirty : Bool
  totalUploadsAttempted : Nat
  totalUploadsSucceeded : Nat
  totalUploadsFailed : Nat
  totalRetries : Nat
  totalNewAircraft : Nat
  totalUpdates : Nat
  totalReappeared : Nat
  totalPollCycles : Nat
  deriving Repr, DecidableEq

/-- `getCurrentTpm`: 0 before the first upload; otherwise the sum of the
twelve buckets, appending to the 30-point history when at least 3 s have
passed since the last append. -/
def getCurrentTpm (s : TrackerState) (now : Nat) : Nat × TrackerState :=
  if s.lastBucketUpdate = 0 then (0, s)
  else
    let currentTpm := s.tpmBuckets.foldl (fun a b => a + b) 0
    if now - s.lastTpmHistoryUpdate ≥ 3000 then
      (currentTpm,
        { s with
            tpmHistory := s.tpmHistory.drop 1 ++ [currentTpm]
            lastTpmHistoryUpdate := now })
    else (currentTpm, s)

/-- The bucket-rotation segment of `updateTpmEMA`: when 5 s or more have
elapsed, advance and clear `min(elapsed / 5000, 12)` buckets. -/
def rotateExpiredBuckets (s : TrackerState) (now : Nat) : TrackerState :=
  let elapsed := now - s.lastBucketUpdate
  if elapsed ≥ 5000 then
    let bucketsToRotate := min (elapsed / 5000) 12
    let rot := (List.range bucketsToRotate).foldl
      (fun (p : List Nat × Nat) _ => (p.1.set ((p.2 + 1) % 12) 0, (p.2 + 1) % 12))
      (s.tpmBuckets, s.currentBucketIndex)
    { s with
        tpmBuckets := rot.1
        currentBucketIndex := rot.2
        lastBucketUpdate := now }
  else s

/-- `updateTpmEMA`, the upload-success path: initialise on the first upload,
otherwise rotate expired buckets and increment the current one. -/
def updateTpmEMA (s : TrackerState) (now : Nat) : TrackerState :=
  if s.lastBucketUpdate = 0 then
    { s with
        lastBucketUpdate := now
        tpmBuckets := s.tpmBuckets.set s.currentBucketIndex 1 }
  else
    let s1 := rotateExpiredBuckets s now
    { s1 with
        tpmBuckets := s1.tpmBuckets.set s1.currentBucketIndex
          (s1.tpmBuckets.getD s1.currentBucketIndex 0 + 1) }

/-- `getStats`, the state-mutating skeleton: refresh the cached track count
when it is older than 5 s, read the TPM (which may append to the history),
and raise `peakTpm` (scheduling a debounced persist) when exceeded. -/
def getStats (s : TrackerState) (now : Nat) (dbCount : Nat) : TrackerState :=
  let s1 :=
    if now - s.lastTracksCountUpdate > 5000 then
      { s with cachedTotalTracks := dbCount, lastTracksCountUpdate := now }
    else s
  let r := getCurrentTpm s1 now
  if r.1 > r.2.peakTpm then
    { r.2 with peakTpm := r.1, statsDirty := true }
  else r.2

def c10State : TrackerState :=
  { cachedTotalTracks := 0
    lastTracksCountUpdate := 99999
    tpmBuckets := [7, 0, 0, 0, 0, 0, 0, 0, 0, 0, 0, 0]
    currentBucketIndex := 0
    lastBucketUpdate := 1000
    tpmHistory := []
    lastTpmHistoryUpdate := 1000
    peakTpm := 50
    statsDirty := false
    totalUploadsAttempted := 0
    totalUploadsSucceeded := 0
    totalUploadsFailed := 0
    totalRetries := 0
    totalNewAircraft := 0
    totalUpdates := 0
    totalReappeared := 0
    totalPollCycles := 0 }

/-- Counterexample to claim C10: `getStats` does **not** rotate the TPM
buckets.  At `now = 100000`, 99 s after the only bucket update, the
source's own rotation (`updateTpmEMA`'s rotation segment) would clear every
bucket, but `getStats` leaves them untouched and still reports their stale
sum. -/
theorem claim_C10_counterexample :
    ¬ ((getStats c10State 100000 0).tpmBuckets
        = (rotateExpiredBuckets c10State 100000).tpmBuckets) := by
  decide

theorem getCurrentTpm_fst (s : TrackerState) (now : Nat) :
    (getCurrentTpm s now).1
      = (if s.lastBucketUpdate = 0 then 0
        else s.tpmBuckets.foldl (fun a b => a + b) 0) := by
  unfold getCurrentTpm
  by_cases hb : s.lastBucketUpdate = 0
  · simp [hb]
  · by_cases hh : now - s.lastTpmHistoryUpdate ≥ 3000 <;> simp [hb, hh]

theorem getCurrentTpm_snd (s : TrackerState) (now : Nat) :
    (getCurrentTpm s now).2
      = (if s.lastBucketUpdate ≠ 0 ∧ now - s.lastTpmHistoryUpdate ≥ 3000 then
          { s with
              tpmHistory := s.tpmHistory.drop 1
                ++ [s.tpmBuckets.foldl (fun a b => a + b) 0]
              lastTpmHistoryUpdate := now }
        else s) := by
  unfold getCurrentTpm
  by_cases hb : s.lastBucketUpdate = 0
  · simp [hb]
  · by_cases hh : now - s.lastTpmHistoryUpdate ≥ 3000 <;> simp [hb, hh]

/-- Claim C10, amended.  `getStats` is not a pure read: it refreshes the
cached total-tracks count when older than 5 s, appends the current TPM (the
plain bucket sum — the buckets themselves are **not** rotated here; only
`updateTpmEMA`, on the upload path, rotates) to the 30-point history when
at least 3 s have passed, and raises `peakTpm` and schedules the debounced
persist when the current TPM exceeds it; the TPM buckets, the bucket index,
the bucket clock and all counter fields are left unchanged. -/
theorem claim_C10_amended (s : TrackerState) (now dbCount : Nat) :
    ((getStats s now dbCount).tpmBuckets = s.tpmBuckets
      ∧ (getStats s now dbCount).currentBucketIndex = s.currentBucketIndex
      ∧ (getStats s now dbCount).lastBucketUpdate = s.lastBucketUpdate)
    ∧ ((getStats s now dbCount).totalUploadsAttempted = s.totalUploadsAttempted
      ∧ (getStats s now dbCount).totalUploadsSucceeded = s.totalUploadsSucceeded
      ∧ (getStats s now dbCount).totalUploadsFailed = s.totalUploadsFailed
      ∧ (getStats s now dbCount).totalRetries = s.totalRetries
      ∧ (getStats s now dbCount).totalNewAircraft = s.totalNewAircraft
      ∧ (getStats s now dbCount).totalUpdates = s.totalUpdates
      ∧ (getStats s now dbCount).totalReappeared = s.totalReappeared
      ∧ (getStats s now dbCount).totalPollCycles = s.totalPollCycles)
    ∧ (getStats s now dbCount).cachedTotalTracks
        = (if now - s.lastTracksCountUpdate > 5000 then dbCount
          else s.cachedTotalTracks)
    ∧ (s.lastBucketUpdate ≠ 0 → now - s.lastTpmHistoryUpdate ≥ 3000 →
        (getStats s now dbCount).tpmHistory
          = s.tpmHistory.drop 1 ++ [s.tpmBuckets.foldl (fun a b => a + b) 0])
    ∧ (s.lastBucketUpdate = 0 → (getStats s now dbCount).tpmHistory = s.tpmHistory)
    ∧ (getStats s now dbCount).peakTpm
        = max s.peakTpm
          (if s.lastBucketUpdate = 0 then 0
          else s.tpmBuckets.foldl (fun a b => a + b) 0)
    ∧ (getStats s now dbCount).statsDirty
        = (s.statsDirty
          || decide (s.peakTpm
              < if s.lastBucketUpdate = 0 then 0
                else s.tpmBuckets.foldl (fun a b => a + b) 0)) := by
  have hgs : getStats s now dbCount
      = (if (getCurrentTpm (if now - s.lastTracksCountUpdate > 5000 then
              { s with cachedTotalTracks := dbCount, lastTracksCountUpdate := now }
            else s) now).1
          > (getCurrentTpm (if now - s.lastTracksCountUpdate > 5000 then
              { s with cachedTotalTracks := dbCount, lastTracksCountUpdate := now }
            else s) now).2.peakTpm then
          { (getCurrentTpm (if now - s.lastTracksCountUpdate > 5000 then
              { s with cachedTotalTracks := dbCount, lastTracksCountUpdate := now }
            else s) now).2 with
              peakTpm := (getCurrentTpm (if now - s.lastTracksCountUpdate > 5000 then
                { s with cachedTotalTracks := dbCount, lastTracksCountUpdate := now }
              else s) now).1
              statsDirty := true }
        else (getCurrentTpm (if now - s.lastTracksCountUpdate > 5000 then
            { s with cachedTotalTracks := dbCount, lastTracksCountUpdate := now }
          else s) now).2) := rfl
  rw [hgs, getCurrentTpm_fst, getCurrentTpm_snd]
  by_cases hcount : now - s.lastTracksCountUpdate > 5000 <;>
    [rw [if_pos hcount, if_pos hcount]; rw [if_neg hcount, if_neg hcount]] <;>
    (try dsimp only) <;>
    (by_cases hb : s.lastBucketUpdate = 0
     case pos =>
      rw [if_pos hb,
        if_neg (show ¬ (s.lastBucketUpdate ≠ 0 ∧ now - s.lastTpmHistoryUpdate ≥ 3000)
          by simp [hb])]
      try dsimp only
      rw [if_neg (show ¬ (0 > s.peakTpm) by omega)]
      try dsimp only
      refine ⟨⟨rfl, rfl, rfl⟩, ⟨rfl, rfl, rfl, rfl, rfl, rfl, rfl, rfl⟩, rfl,
        fun hc _ => absurd hb hc, fun _ => rfl, by simp, by simp⟩
     case neg =>
      rw [if_neg hb]
      by_cases hh : now - s.lastTpmHistoryUpdate ≥ 3000
      case pos =>
        rw [if_pos (show s.lastBucketUpdate ≠ 0 ∧ now - s.lastTpmHistoryUpdate ≥ 3000
          from ⟨hb, hh⟩)]
        try dsimp only
        by_cases hp : s.tpmBuckets.foldl (fun a b => a + b) 0 > s.peakTpm
        case pos =>
          rw [if_pos hp]
          try dsimp only
          refine ⟨⟨rfl, rfl, rfl⟩, ⟨rfl, rfl, rfl, rfl, rfl, rfl, rfl, rfl⟩, rfl,
            fun _ _ => rfl, fun hc => absurd hc hb,
            (Nat.max_eq_right (Nat.le_of_lt hp)).symm, ?_⟩
          rw [decide_eq_true hp]
          simp
        case neg =>
          rw [if_neg hp]
          try dsimp only
          refine ⟨⟨rfl, rfl, rfl⟩, ⟨rfl, rfl, rfl, rfl, rfl, rfl, rfl, rfl⟩, rfl,
            fun _ _ => rfl, fun hc => absurd hc hb,
            (Nat.max_eq_left (by omega)).symm, ?_⟩
          rw [decide_eq_false (by omega)]
          simp
      case neg =>
        rw [if_neg (show ¬ (s.lastBucketUpdate ≠ 0 ∧ now - s.lastTpmHistoryUpdate ≥ 3000)
          by simp [hh])]
        try dsimp only
        by_cases hp : s.tpmBuckets.foldl (fun a b => a + b) 0 > s.peakTpm
        case pos =>
          rw [if_pos hp]
          try dsimp only
          refine ⟨⟨rfl, rfl, rfl⟩, ⟨rfl, rfl, rfl, rfl, rfl, rfl, rfl, rfl⟩, rfl,
            fun _ hc => absurd hc hh, fun hc => absurd hc hb,
            (Nat.max_eq_right (Nat.le_of_lt hp)).symm, ?_⟩
          rw [decide_eq_true hp]
          simp
        case neg =>
          rw [if_neg hp]
          try dsimp only
          refine ⟨⟨rfl, rfl, rfl⟩, ⟨rfl, rfl, rfl, rfl, rfl, rfl, rfl, rfl⟩, rfl,
            fun _ hc => absurd hc hh, fun hc => absurd hc hb,
            (Nat.max_eq_left (by omega)).symm, ?_⟩
          rw [decide_eq_false (by omega)]
          simp)

/-- Witness for the amended claim C10 at a concrete state and clock. -/
theorem claim_C10_amended_witness :
    (getStats c10State 100000 42).tpmBuckets = c10State.tpmBuckets
    ∧ (getStats c10State 100000 42).tpmHistory
        = c10State.tpmHistory.drop 1
          ++ [c10State.tpmBuckets.foldl (fun a b => a + b) 0] := by
  obtain ⟨⟨h1, _, _⟩, _, _, hhist, _, _⟩ :=
    claim_C10_amended c10State 100000 42
  exact ⟨h1, hhist (by decide) (by decide)⟩


/-! ## Snapshot backup and restore (claim C1)

Source: `StatsBackupService.backupStats` / `queryLatestBackup` (the restore
download-and-decrypt path) over `EncryptionService.encryptFile` /
`encryptBuffer` / `decryptFile`.  `backupStats` wraps the counter row into
a JSON document and encrypts it via `encryptFile(tmpFile,
STATS_BACKUP_UUID)`, which delegates to `encryptBuffer` — and
`encryptBuffer` always seals under the current **minute** key; the package
uuid is carried as correlation metadata only.  The restore path decrypts
with `decryptFile(file, STATS_BACKUP_UUID)`, i.e. with the key derived from
the fixed uuid itself. -/

/-- The 14 counters of the `ArweaveStatsBackup.stats` payload. -/
structure StatsCounters where
  system_start_time : Nat
  total_uploads_attempted : Nat
  total_uploads_succeeded : Nat
  total_uploads_failed : Nat
  total_retries : Nat
  encrypted_uploads_attempted : Nat
  encrypted_uploads_succeeded : Nat
  encrypted_uploads_failed : Nat
  encrypted_retries : Nat
  nildb_keys_saved : Nat
  total_new_aircraft : Nat
  total_updates : Nat
  total_reappeared : Nat
  total_poll_cycles : Nat
  deriving Repr, DecidableEq

structure ArweaveStatsBackup where
  timestamp : Nat
  stats : StatsCounters
  backupId : String
  deriving Repr, DecidableEq

def STATS_BACKUP_UUID : String := "system-stats-backup"

/-- `backupStats`: build the backup document and encrypt it with the fixed
package uuid (via `encryptFile` → `encryptBuffer`). -/
def backupStats (stats : StatsCounters) (timestamp : Nat) (backupId : String)
    (now : Nat) (freshUuid : String) (s : MinuteKeyState) :
    SymCipher ArweaveStatsBackup × MinuteKeyState :=
  let backup : ArweaveStatsBackup :=
    { timestamp := timestamp, stats := stats, backupId := backupId }
  let r := encryptBuffer backup STATS_BACKUP_UUID now freshUuid s
  (r.1.encryptedBuffer, r.2)

/-- The decrypt-and-parse step of `queryLatestBackup` (restore): download the
package and decrypt it with the fixed uuid. -/
def restoreDecrypt (pkg : SymCipher ArweaveStatsBackup) :
    Option ArweaveStatsBackup :=
  decryptFile pkg STATS_BACKUP_UUID

/-- No minute key uuid equals the fixed backup uuid (they start with
different characters). -/
theorem mkEncKeyUuid_ne_statsUuid (m : Nat) (u : String) :
    mkEncKeyUuid m u ≠ STATS_BACKUP_UUID := by
  intro h
  have hd : (mkEncKeyUuid m u).data
      = 'e' :: 'n' :: 'c' :: 'k' :: 'e' :: 'y' :: '-' ::
        (natDigits m ++ '-' :: u.data) := by
    simp [mkEncKeyUuid, natStr, String.data_append]
  have h2 := congrArg String.data h
  rw [hd] at h2
  have h3 := congrArg List.head? h2
  simp only [List.head?_cons] at h3
  exact absurd h3 (by decide)

/-- Claim C1 names a round trip the code cannot perform: `backupStats`
seals the snapshot under the **minute** key
(`enckey-(minuteEpoch)-(randomUUID)`), while the restore path derives its
decryption key from the fixed uuid `"system-stats-backup"`.  The two keys
always differ, so the authenticated decryption fails and the restore never
recovers the counter set — for every counter row, clock, uuid draw and
well-formed key-cache state. -/
theorem claim_C1_backup_restore_decrypt_fails (stats : StatsCounters)
    (timestamp : Nat) (backupId : String) (now : Nat) (freshUuid : String)
    (s : MinuteKeyState) (hwf : WfKeyState s) :
    restoreDecrypt (backupStats stats timestamp backupId now freshUuid s).1
      = none := by
  obtain ⟨⟨u, hu⟩, _, _⟩ := getOrGenerate_result now freshUuid s hwf
  unfold restoreDecrypt backupStats decryptFile encryptBuffer gcmDecrypt deriveKeyFromUuid
  dsimp only
  rw [if_neg (by rw [hu]; exact mkEncKeyUuid_ne_statsUuid _ u)]

/-- Witness: a cold `EncryptionService` (no cached minute key), an all-zero
counter row backed up at `now = 0` — the restore decryption fails. -/
theorem claim_C1_backup_restore_decrypt_fails_witness :
    restoreDecrypt (backupStats
        ⟨0, 0, 0, 0, 0, 0, 0, 0, 0, 0, 0, 0, 0, 0⟩ 0 "0011223344556677" 0
        "aaaabbbb-cccc-dddd-eeee-ffff00001111" ⟨none⟩).1 = none :=
  claim_C1_backup_restore_decrypt_fails
    ⟨0, 0, 0, 0, 0, 0, 0, 0, 0, 0, 0, 0, 0, 0⟩ 0 "0011223344556677" 0
    "aaaabbbb-cccc-dddd-eeee-ffff00001111" ⟨none⟩ wfKeyState_none


/-! ## The change classifier and the upload write path (claim C6)

Source: the per-observation loop of `pollAndProcess` with
`handleNewAircraft` / `handleReappearedAircraft` / `handleUpdatedAircraft`
(each adds to both batch buffers via `addToBatch`; the two buffers receive
identical pushes, so one buffer is modelled), and the database effects of
`uploadBatch` / `uploadEncryptedBatch` with the archive-record rows written
by `ArchiveService.uploadBatchParquet` / `uploadBatchParquetEncrypted`. -/

/-- An `AircraftState` cache entry. -/
structure CacheEntry where
  hex : String
  data : Aircraft
  hash : String
  lastSeen : Nat
  lastUploaded : Nat
  deriving Repr, DecidableEq

def cacheGet (c : List (String × CacheEntry)) (hex : String) : Option CacheEntry :=
  (c.find? (fun p => p.1 == hex)).map (fun p => p.2)

def cacheSet (c : List (String × CacheEntry)) (hex : String) (e : CacheEntry) :
    List (String × CacheEntry) :=
  (hex, e) :: c.filter (fun p => !(p.1 == hex))

def REAPPEAR_THRESHOLD_MS : Nat := 5 * 60 * 1000

structure PollState where
  cache : List (String × CacheEntry)
  buffer : List BatchEvent
  seenInThisPoll : List String
  newCount : Nat
  updatedCount : Nat
  reappearedCount : Nat
  deriving Repr, DecidableEq

/-- One iteration of the `pollAndProcess` observation loop. -/
def processObservation (feedNow now : Nat) (st : PollState) (aircraft : Aircraft) :
    PollState :=
  let hex := aircraft.hex
  if st.seenInThisPoll.contains hex then st
  else
    let st := { st with seenInThisPoll := st.seenInThisPoll ++ [hex] }
    let currentHash := calculateAircraftHash aircraft
    match cacheGet st.cache hex with
    | none =>
      { st with
          cache := cacheSet st.cache hex
            ⟨hex, aircraft, currentHash, now, now⟩
          buffer := st.buffer ++ [⟨aircraft, feedNow, hex⟩]
          newCount := st.newCount + 1 }
    | some cached =>
      if now - cached.lastSeen > REAPPEAR_THRESHOLD_MS then
        { st with
            cache := cacheSet st.cache hex
              ⟨hex, aircraft, currentHash, now, now⟩
            buffer := st.buffer ++ [⟨aircraft, feedNow, hex⟩]
            reappearedCount := st.reappearedCount + 1 }
      else if currentHash ≠ cached.hash then
        { st with
            cache := cacheSet st.cache hex
              ⟨hex, aircraft, currentHash, now, now⟩
            buffer := st.buffer ++ [⟨aircraft, feedNow, hex⟩]
            updatedCount := st.updatedCount + 1 }
      else
        { st with cache := cacheSet st.cache hex { cached with lastSeen := now } }

/-- The observation loop over one feed response. -/
def pollObservations (feedNow now : Nat) (cache0 : List (String × CacheEntry))
    (aircraftList : List Aircraft) : PollState :=
  aircraftList.foldl (processObservation feedNow now) ⟨cache0, [], [], 0, 0, 0⟩

/-- A row of the `archive_record` table, as written by
`ArchiveService.create` after a clear upload. -/
structure ArchiveRecord where
  txId : String
  source : String
  timestamp : String
  aircraft_count : Nat
  file_size_kb : String
  format : String
  icao_addresses : List String
  packageUuid : String
  deriving Repr, DecidableEq

/-- A row of the `encrypted_archive_records` table, as written by
`ArchiveService.createEncrypted` after an encrypted upload. -/
structure EncryptedArchiveRecord where
  txId : String
  source : String
  timestamp : String
  aircraft_count : Nat
  file_size_kb : String
  format : String
  icao_addresses : List String
  packageUuid : String
  dataHash : String
  encryptionAlgorithm : String
  deriving Repr, DecidableEq

/-- Database effects of a successful clear `uploadBatch`: the archive-record
row written inside `uploadBatchParquet` and the bulk track upsert. -/
def uploadBatch (batch : List BatchEvent) (packageUuid txId : String)
    (db : List TrackRow) (records : List ArchiveRecord) (now : Nat)
    (utcTimestamp fileSizeKb : String) : List TrackRow × List ArchiveRecord :=
  match batch with
  | [] => (db, records)
  | _ =>
    let aircraftList := batch.map (fun it => it.aircraft)
    let icaoList := (aircraftList.filter (fun a => !(a.hex == ""))).map
      (fun a => a.hex)
    let rec1 : ArchiveRecord :=
      { txId := txId
        source := "aircraft-parquet-batch"
        timestamp := utcTimestamp
        aircraft_count := aircraftList.length
        file_size_kb := fileSizeKb
        format := "Parquet"
        icao_addresses := icaoList
        packageUuid := packageUuid }
    (bulkUpsert db batch txId now, records ++ [rec1])

/-- Database effects of a successful `uploadEncryptedBatch`: the encrypted
archive-record row and the same bulk track upsert. -/
def uploadEncryptedBatch (batch : List BatchEvent) (packageUuid txId : String)
    (db : List TrackRow) (records : List EncryptedArchiveRecord) (now : Nat)
    (utcTimestamp fileSizeKb dataHash : String) :
    List TrackRow × List EncryptedArchiveRecord :=
  match batch with
  | [] => (db, records)
  | _ =>
    let aircraftList := batch.map (fun it => it.aircraft)
    let icaoList := (aircraftList.filter (fun a => !(a.hex == ""))).map
      (fun a => a.hex)
    let rec1 : EncryptedArchiveRecord :=
      { txId := txId
        source := "aircraft-parquet-batch"
        timestamp := utcTimestamp
        aircraft_count := aircraftList.length
        file_size_kb := fileSizeKb
        format := "Parquet"
        icao_addresses := icaoList
        packageUuid := packageUuid
        dataHash := dataHash
        encryptionAlgorithm := "AES-256-GCM" }
    (bulkUpsert db batch txId now, records ++ [rec1])

/-! The S1 cold-start scenario: empty cache, empty database, one feed
response with a single aircraft, both uploads succeed, the clear upload
completing before the encrypted one (the enqueue order; the source offers
no cross-pipeline completion ordering, so this is the sequential run). -/

def s1Aircraft : Aircraft :=
  { hex := "48436b", flight := some "KLM855", lat := some "40.9258"
    lon := some "47.0615", alt_baro := some "37000", gs := some "575.3"
    track := some "77.65", squawk := some "6025", emergency := some "none" }

def s1FeedNow : Nat := 1751069515

def s1NowMs : Nat := 1751069515500

def s1Event : BatchEvent := ⟨s1Aircraft, s1FeedNow, "48436b"⟩

def s1Poll : PollState := pollObservations s1FeedNow s1NowMs [] [s1Aircraft]

def s1U1 : Nat → String := fun _ => "pkg-uuid-1"

def s1U2 : Nat → String := fun _ => "fallback-uuid"

def s1Clear : List QueueItem × UuidMap := processBatch s1Poll.buffer s1U1 []

def s1Encrypted : List QueueItem := processEncryptedBatch s1Poll.buffer s1U2 s1Clear.2

/-- Database state after the clear upload succeeds. -/
def s1AfterClear : List TrackRow × List ArchiveRecord :=
  uploadBatch [s1Event] "pkg-uuid-1" "tx-clear" [] [] s1NowMs "ut" "1.00"

/-- Database state after the encrypted upload then also succeeds. -/
def s1AfterBoth : List TrackRow × List EncryptedArchiveRecord :=
  uploadEncryptedBatch [s1Event] "pkg-uuid-1" "tx-enc" s1AfterClear.1 []
    (s1NowMs + 100) "ut" "1.05" "dh"

theorem s1Poll_eval :
    s1Poll.newCount = 1 ∧ s1Poll.updatedCount = 0 ∧ s1Poll.reappearedCount = 0
      ∧ s1Poll.buffer = [s1Event] := by
  refine ⟨rfl, rfl, rfl, rfl⟩

theorem s1Clear_eval :
    s1Clear = ([⟨[s1Event], "pkg-uuid-1", batchIdOf [s1Event] 0⟩],
      [(batchIdOf [s1Event] 0, "pkg-uuid-1")]) := by
  have hb : s1Poll.buffer = [s1Event] := rfl
  show processBatch s1Poll.buffer s1U1 [] = _
  rw [hb, processBatch, chunksOf_singleton]
  rfl

theorem mapGet_singleton (k v : String) : mapGet [(k, v)] k = some v := by
  simp [mapGet, List.find?_cons, beq_self_eq_true]

theorem s1Encrypted_eval :
    s1Encrypted = [⟨[s1Event], "pkg-uuid-1", batchIdOf [s1Event] 0⟩] := by
  have hb : s1Poll.buffer = [s1Event] := rfl
  show processEncryptedBatch s1Poll.buffer s1U2 s1Clear.2 = _
  rw [hb, s1Clear_eval, processEncryptedBatch, chunksOf_singleton]
  show [⟨[s1Event],
      (mapGet [(batchIdOf [s1Event] 0, "pkg-uuid-1")]
        (batchIdOf [s1Event] 0)).getD (s1U2 0),
      batchIdOf [s1Event] 0⟩]
    ++ enqueueEncryptedBatches s1U2 [(batchIdOf [s1Event] 0, "pkg-uuid-1")] [] 1
    = _
  rw [mapGet_singleton]
  rfl

/-- Counterexample to claim C6: after both uploads succeed (sequentially),
the single AircraftTrack row has `uploadCount = 2`, not 1 — both pipelines
run the bulk upsert, and the encrypted one finds the row the clear one
inserted and increments it. -/
theorem claim_C6_counterexample :
    ¬ (∀ r ∈ s1AfterBoth.1, r.upload_count = 1) := by
  decide

/-- Claim C6, amended.  Cold start with one aircraft: 1 NEW event (no
updates, no reappearances), one clear batch of 1 and one encrypted batch of
1 carrying the **same** `packageUuid` and batch id, one row written to each
of the two archive-record tables — but after both uploads succeed the
AircraftTrack row ends with `uploadCount = 2` and `totalUpdates = 1`,
because each pipeline performs the track upsert (the row has
`uploadCount = 1` only between the two completions). -/
theorem claim_C6_amended :
    (s1Poll.newCount = 1 ∧ s1Poll.updatedCount = 0
      ∧ s1Poll.reappearedCount = 0)
    ∧ s1Clear.1.map QueueItem.batch = [[s1Event]]
    ∧ s1Encrypted.map QueueItem.batch = [[s1Event]]
    ∧ s1Encrypted.map QueueItem.packageUuid = s1Clear.1.map QueueItem.packageUuid
    ∧ s1AfterClear.2.length = 1
    ∧ s1AfterBoth.2.length = 1
    ∧ (∀ r ∈ s1AfterClear.1, r.hex = "48436b" ∧ r.upload_count = 1
        ∧ r.total_updates = 0 ∧ r.status = "active")
    ∧ s1AfterClear.1.length = 1
    ∧ (∀ r ∈ s1AfterBoth.1, r.hex = "48436b" ∧ r.upload_count = 2
        ∧ r.total_updates = 1 ∧ r.status = "active")
    ∧ s1AfterBoth.1.length = 1 := by
  refine ⟨⟨rfl, rfl, rfl⟩, ?_, ?_, ?_, rfl, rfl, by decide, rfl, by decide, rfl⟩
  · rw [s1Clear_eval]
    rfl
  · rw [s1Encrypted_eval]
    rfl
  · rw [s1Clear_eval, s1Encrypted_eval]

end DeRadar
